import Mathlib

/-!
Shallow embedding of the corp_capacity_planning allocation engine.

Conventions used throughout:
* Python ints are modelled as `ℤ`, Python floats as exact rationals `ℚ`
  (the engine only performs field arithmetic and `round`).
* Python `round` (banker rounding, half to even) is modelled exactly by
  `Corp.pyRound` on `ℚ`.
* Python dicts keyed by strings are modelled as association lists in
  insertion order; `dict.get` becomes `List.find?`.
* A floor identity is the pair `(tower_id, floor_number)`; the source
  builds the string `tower_id ++ "-F" ++ str(floor_number)` from exactly
  these two components, so the pair is the same key.
* In-place mutation of `AllocationRecommendation` objects is modelled by
  returning updated copies; where the source mutates objects through a
  sorted view and returns the original list, the embedding applies the
  updates and restores the original order by unit-name lookup (equivalent
  for duplicate-free unit names, which the theorems assume).
* Human-readable explanation trails (explainer.py) are presentation-only
  and are elided (`explanation_steps` is carried but left empty).
-/

namespace Corp

/-! ## Data model, configuration and the embedded operations -/

/-- Python `round`: round half to even on an exact rational. -/
def pyRound (q : ℚ) : ℤ :=
  let n : ℤ := ⌊q⌋
  let f : ℚ := q - n
  if f < 1/2 then n
  else if 1/2 < f then n + 1
  else if n % 2 = 0 then n else n + 1

/-- src/models/unit.py `Unit`.  `seat_alloc_pct` is the per-unit flat
allocation override which the source attaches dynamically to `Unit`
objects (admin tab / tests); absent means no override (`none`). -/
structure Unit where
  unit_name : String
  current_total_hc : ℤ
  hc_growth_pct : ℚ
  attrition_pct : ℚ
  business_priority : Option String := none
  seat_alloc_pct : Option ℚ := none
  deriving DecidableEq, Repr

/-- src/models/unit.py `Unit.net_hc_change_pct`. -/
def Unit.net_hc_change_pct (u : Unit) : ℚ := u.hc_growth_pct - u.attrition_pct

/-- src/models/attendance.py `AttendanceProfile`. -/
structure AttendanceProfile where
  unit_name : String
  monthly_median_hc : ℚ
  monthly_max_hc : ℚ
  avg_rto_days_per_week : ℚ
  attendance_stability : Option ℚ := none
  deriving DecidableEq, Repr

/-- src/models/building.py `Floor`. -/
structure Floor where
  building_id : String
  building_name : String
  tower_id : String
  floor_number : ℤ
  total_seats : ℤ
  deriving DecidableEq, Repr

/-- src/models/building.py `Floor.floor_id`: the source encodes the pair
`(tower_id, floor_number)` as the string `tower_id ++ "-F" ++ str(n)`;
the embedding keeps the pair itself as the key. -/
def Floor.floor_id (f : Floor) : String × ℤ := (f.tower_id, f.floor_number)

/-- src/models/allocation.py `AllocationRecommendation`.
`explanation_steps` (free-text derivation trail) is carried but elided. -/
structure AllocationRecommendation where
  unit_name : String
  recommended_alloc_pct : ℚ
  effective_demand_seats : ℤ
  allocated_seats : ℤ
  seat_gap : ℤ
  fragmentation_score : ℚ
  explanation_steps : List String := []
  is_overridden : Bool := false
  override_alloc_pct : Option ℚ := none
  override_rationale : String := ""
  deriving DecidableEq, Repr

/-- src/models/allocation.py `FloorAssignment`. -/
structure FloorAssignment where
  unit_name : String
  building_id : String
  tower_id : String
  floor_number : ℤ
  seats_assigned : ℤ
  adjacency_tier : String
  deriving DecidableEq, Repr

/-- Floor identity of an assignment, matching `Floor.floor_id`. -/
def FloorAssignment.floorKey (a : FloorAssignment) : String × ℤ :=
  (a.tower_id, a.floor_number)

def MIN_ALLOC_PCT : ℚ := 0.20

def MAX_ALLOC_PCT : ℚ := 1.50

def DEFAULT_GLOBAL_ALLOC_PCT : ℚ := 0.80

def STABILITY_DISCOUNT_THRESHOLD : ℚ := 0.7

def STABILITY_DISCOUNT_FACTOR : ℚ := 0.30

def PEAK_BUFFER_MULTIPLIER : ℚ := 1.0

def SHRINK_CONTRIBUTION_FACTOR : ℚ := 0.5

def WORKING_DAYS_PER_WEEK : ℚ := 5

def ADJACENCY_BONUS_SAME_FLOOR : ℤ := 100

def ADJACENCY_BONUS_ADJACENT_FLOOR : ℤ := 60

def ADJACENCY_BONUS_SAME_TOWER : ℤ := 30

def ADJACENCY_BONUS_CROSS_TOWER : ℤ := 0

def FRAGMENTATION_PENALTY_PER_FLOOR : ℤ := 30

/-- src/config/defaults.py `PRIORITY_ORDER` plus the `.get(_, 3)` fallback
used in `distribute_seats`. -/
def priorityOrder : Option String → ℤ
  | some s => if s = "High" then 0 else if s = "Medium" then 1 else if s = "Low" then 2 else 3
  | none => 3

/-- The `rule_config` dict: recognized keys, each optional, with
`cfg.get(key, default)` modelled by `Option.getD`. -/
structure RuleConfig where
  global_alloc_pct : Option ℚ := none
  min_alloc_pct : Option ℚ := none
  max_alloc_pct : Option ℚ := none
  peak_buffer_multiplier : Option ℚ := none
  shrink_contribution_factor : Option ℚ := none
  stability_discount_threshold : Option ℚ := none
  stability_discount_factor : Option ℚ := none
  rto_utilization_threshold : Option ℚ := none
  deriving DecidableEq, Repr

/-- `compute_recommended_allocation` (attendance-derived mode).
Note: the source computes the peak buffer from `monthly_max_hc`,
`monthly_median_hc` and `peak_buffer_multiplier` only; it never reads
`attendance_stability` nor the stability discount configuration. -/
def compute_recommended_allocation (unit : Unit) (attendance : AttendanceProfile)
    (horizon_months : ℤ) (cfg : RuleConfig) : AllocationRecommendation :=
  let min_alloc := cfg.min_alloc_pct.getD MIN_ALLOC_PCT
  let max_alloc := cfg.max_alloc_pct.getD MAX_ALLOC_PCT
  let buffer_multiplier := cfg.peak_buffer_multiplier.getD PEAK_BUFFER_MULTIPLIER
  let hc := unit.current_total_hc
  if hc = 0 then
    { unit_name := unit.unit_name, recommended_alloc_pct := 0,
      effective_demand_seats := 0, allocated_seats := 0, seat_gap := 0,
      fragmentation_score := 0 }
  else
    let base_ratio := attendance.monthly_median_hc / (hc : ℚ)
    let peak_buffer :=
      (attendance.monthly_max_hc - attendance.monthly_median_hc) / (hc : ℚ) * buffer_multiplier
    let rto_factor := attendance.avg_rto_days_per_week / WORKING_DAYS_PER_WEEK
    let scaled_ratio := base_ratio * rto_factor
    let net_change := unit.hc_growth_pct - unit.attrition_pct
    let horizon_factor := 1 + net_change * ((horizon_months : ℚ) / 12)
    let growth_adjusted := scaled_ratio * horizon_factor
    let raw_alloc_pct := growth_adjusted + peak_buffer
    let recommended_alloc_pct := max min_alloc (min max_alloc raw_alloc_pct)
    let effective_demand := pyRound (recommended_alloc_pct * (hc : ℚ))
    { unit_name := unit.unit_name, recommended_alloc_pct := recommended_alloc_pct,
      effective_demand_seats := effective_demand, allocated_seats := 0, seat_gap := 0,
      fragmentation_score := 0 }

/-- `compute_simple_allocation` (flat mode). -/
def compute_simple_allocation (unit : Unit) (horizon_months : ℤ)
    (cfg : RuleConfig) : AllocationRecommendation :=
  let global_alloc := cfg.global_alloc_pct.getD DEFAULT_GLOBAL_ALLOC_PCT
  let min_alloc := cfg.min_alloc_pct.getD MIN_ALLOC_PCT
  let max_alloc := cfg.max_alloc_pct.getD MAX_ALLOC_PCT
  let hc := unit.current_total_hc
  if hc = 0 then
    { unit_name := unit.unit_name, recommended_alloc_pct := 0,
      effective_demand_seats := 0, allocated_seats := 0, seat_gap := 0,
      fragmentation_score := 0 }
  else
    let base_alloc := unit.seat_alloc_pct.getD global_alloc
    let net_change := unit.hc_growth_pct - unit.attrition_pct
    let horizon_factor := 1 + net_change * ((horizon_months : ℚ) / 12)
    let adjusted_alloc := base_alloc * horizon_factor
    let recommended_alloc_pct := max min_alloc (min max_alloc adjusted_alloc)
    let effective_demand := pyRound (recommended_alloc_pct * (hc : ℚ))
    { unit_name := unit.unit_name, recommended_alloc_pct := recommended_alloc_pct,
      effective_demand_seats := effective_demand, allocated_seats := 0, seat_gap := 0,
      fragmentation_score := 0 }

/-- `compute_all_allocations`: flat allocation for every unit (the source
always calls `compute_simple_allocation` here; the attendance map
parameter is accepted and ignored, as in the source). -/
def compute_all_allocations (units : List Unit)
    (attendance_map : List (String × AttendanceProfile)) (horizon_months : ℤ)
    (cfg : RuleConfig) : List AllocationRecommendation :=
  let _ := attendance_map
  units.map (fun u => compute_simple_allocation u horizon_months cfg)

/-- `unit_map.get(name)` over the units list. -/
def findUnit (units : List Unit) (name : String) : Option Unit :=
  units.find? (fun u => u.unit_name == name)

/-- The sort key of `distribute_seats` Step A:
`(priority, -net_growth)` with the `unit_map.get` fallback. -/
def sortKey (units : List Unit) (a : AllocationRecommendation) : ℤ × ℚ :=
  match findUnit units a.unit_name with
  | some u => (priorityOrder u.business_priority, -u.net_hc_change_pct)
  | none => (3, 0)

/-- Lexicographic comparison of sort keys (Python tuple `<=`). -/
def keyLe (k1 k2 : ℤ × ℚ) : Bool :=
  decide (k1.1 < k2.1 ∨ (k1.1 = k2.1 ∧ k1.2 ≤ k2.2))

/-- Stable insertion (an element is placed before the first existing
element it compares `le` to), giving Python `sorted` stability. -/
def insertSorted (le : α → α → Bool) (x : α) : List α → List α
  | [] => [x]
  | y :: ys => if le x y then x :: y :: ys else y :: insertSorted le x ys

/-- Stable sort matching Python `sorted` for a total preorder `le`. -/
def stableSort (le : α → α → Bool) : List α → List α
  | [] => []
  | x :: xs => insertSorted le x (stableSort le xs)

/-- `distribute_seats` Step B on one record: a shrinking unit releases
`|net_change| * demand * contribution_factor` seats from its demand. -/
def shrinkRelease (cf : ℚ) (units : List Unit)
    (a : AllocationRecommendation) : AllocationRecommendation :=
  match findUnit units a.unit_name with
  | some u =>
    if u.net_hc_change_pct < 0 then
      let release := |u.net_hc_change_pct| * (a.effective_demand_seats : ℚ) * cf
      { a with effective_demand_seats := max 0 (a.effective_demand_seats - pyRound release) }
    else a
  | none => a

/-- The demand value produced by Step B for a unit with net change `net`. -/
def shrinkDemand (cf net : ℚ) (d : ℤ) : ℤ :=
  if net < 0 then max 0 (d - pyRound (|net| * (d : ℚ) * cf)) else d

/-- The seats handed to one unit in `distribute_seats` Step C:
`min(demand, round(remaining_supply * demand/total_remaining_demand))`,
with the `total_demand > 0` guard of the source. -/
def piAssigned (remaining totalDemand : ℤ) (a : AllocationRecommendation) : ℤ :=
  if 0 < totalDemand then
    min a.effective_demand_seats
      (pyRound ((remaining : ℚ) * ((a.effective_demand_seats : ℚ) / (totalDemand : ℚ))))
  else 0

/-- `distribute_seats` Step C: walk the sorted list, each unit receiving
its `piAssigned` share, with both running totals decremented as it goes. -/
def proportionalFill : ℤ → ℤ → List AllocationRecommendation → List AllocationRecommendation
  | _, _, [] => []
  | remaining, totalDemand, a :: rest =>
    let assigned : ℤ := piAssigned remaining totalDemand a
    { a with allocated_seats := assigned, seat_gap := assigned - a.effective_demand_seats }
      :: proportionalFill (remaining - assigned) (totalDemand - a.effective_demand_seats) rest

/-- Restore the original list order after updates were computed through a
sorted view: the source mutates the shared objects in place, so the
returned (original) list carries the updates.  Equivalent for
duplicate-free unit names. -/
def reorderByName (orig updated : List AllocationRecommendation) : List AllocationRecommendation :=
  orig.map (fun a => (updated.find? (fun b => b.unit_name == a.unit_name)).getD a)

/-- `distribute_seats`. -/
def distribute_seats (allocations : List AllocationRecommendation) (units : List Unit)
    (total_supply : ℤ) (cfg : RuleConfig) : List AllocationRecommendation :=
  let cf := cfg.shrink_contribution_factor.getD SHRINK_CONTRIBUTION_FACTOR
  let total_demand := (allocations.map (·.effective_demand_seats)).sum
  if total_demand ≤ total_supply then
    allocations.map (fun a => { a with allocated_seats := a.effective_demand_seats, seat_gap := 0 })
  else
    let sortedAllocs := stableSort (fun a b => keyLe (sortKey units a) (sortKey units b)) allocations
    let reduced := sortedAllocs.map (shrinkRelease cf units)
    let total2 := (reduced.map (·.effective_demand_seats)).sum
    let filled := proportionalFill total_supply total2 reduced
    reorderByName allocations filled

/-- `run_allocation`: compute recommendations, then distribute over the
total supply (sum of floor capacities). -/
def run_allocation (units : List Unit) (attendance_map : List (String × AttendanceProfile))
    (floors : List Floor) (horizon_months : ℤ) (cfg : RuleConfig) :
    List AllocationRecommendation :=
  let allocations := compute_all_allocations units attendance_map horizon_months cfg
  let total_supply := (floors.map (·.total_seats)).sum
  distribute_seats allocations units total_supply cfg

/-- `compute_adjacency_tier`: tier label and bonus for placing a unit on a
floor, given its existing assignments. -/
def compute_adjacency_tier (floor : Floor) (existing : List FloorAssignment)
    (unitName : String) : String × ℤ :=
  let unitFloors := existing.filter (fun a => a.unit_name == unitName)
  if unitFloors.isEmpty then ("new_placement", 0)
  else if unitFloors.any (fun a =>
      a.tower_id == floor.tower_id && a.floor_number == floor.floor_number) then
    ("same_floor", ADJACENCY_BONUS_SAME_FLOOR)
  else if unitFloors.any (fun a =>
      a.tower_id == floor.tower_id && (a.floor_number - floor.floor_number).natAbs == 1) then
    ("adjacent", ADJACENCY_BONUS_ADJACENT_FLOOR)
  else if unitFloors.any (fun a => a.tower_id == floor.tower_id) then
    ("same_tower", ADJACENCY_BONUS_SAME_TOWER)
  else ("cross_tower", ADJACENCY_BONUS_CROSS_TOWER)

/-- `score_floor_for_unit`. -/
def score_floor_for_unit (floor : Floor) (available_seats : ℤ)
    (existing : List FloorAssignment) (unitName : String) (floorsUsed : ℕ) : ℤ :=
  if available_seats ≤ 0 then -999999
  else available_seats * 10 + (compute_adjacency_tier floor existing unitName).2
    - (floorsUsed : ℤ) * FRAGMENTATION_PENALTY_PER_FLOOR

/-- Number of distinct floors already holding seats of a unit (the source
computes the same count either as a set of id strings or of
`(tower_id, floor_number)` pairs). -/
def floorsUsedBy (assignments : List FloorAssignment) (unitName : String) : ℕ :=
  (((assignments.filter (fun a => a.unit_name == unitName)).map
    FloorAssignment.floorKey).dedup).length

/-- One step of the best-floor scan: skip exhausted floors, keep the
first strictly best score above the `-999999` sentinel. -/
def selectStep (assignments : List FloorAssignment) (unitName : String) (floorsUsed : ℕ)
    (best : Option ((Floor × ℤ) × ℤ)) (entry : Floor × ℤ) : Option ((Floor × ℤ) × ℤ) :=
  if entry.2 ≤ 0 then best
  else
    let s := score_floor_for_unit entry.1 entry.2 assignments unitName floorsUsed
    let bestScore := match best with
      | none => -999999
      | some (_, bs) => bs
    if bestScore < s then some (entry, s) else best

/-- The best-floor scan of `assign_units_to_floors`: walk `floor_remaining`
in insertion order. -/
def selectBestFloor (floorRem : List (Floor × ℤ)) (assignments : List FloorAssignment)
    (unitName : String) (floorsUsed : ℕ) : Option ((Floor × ℤ) × ℤ) :=
  floorRem.foldl (selectStep assignments unitName floorsUsed) none

/-- Decrease the remaining capacity of the floor with the given identity. -/
def updateFloorRem (key : String × ℤ) (amount : ℤ) :
    List (Floor × ℤ) → List (Floor × ℤ)
  | [] => []
  | (f, r) :: rest =>
    if f.floor_id = key then (f, r - amount) :: rest
    else (f, r) :: updateFloorRem key amount rest

/-- The inner `while seats_to_place > 0` loop of `assign_units_to_floors`
for one unit.  `fuel` only bounds the recursion: every successful
iteration places at least one seat (the selected floor has positive
remaining capacity), so calling with `fuel = seatsToPlace.toNat` never
exhausts the fuel before the loop exits. -/
def placeUnit (fuel : ℕ) (seatsToPlace : ℤ) (unitName : String)
    (assignments : List FloorAssignment) (floorRem : List (Floor × ℤ)) :
    List FloorAssignment × List (Floor × ℤ) :=
  match fuel with
  | 0 => (assignments, floorRem)
  | fuel' + 1 =>
    if seatsToPlace ≤ 0 then (assignments, floorRem)
    else
      let floorsUsed := floorsUsedBy assignments unitName
      match selectBestFloor floorRem assignments unitName floorsUsed with
      | none => (assignments, floorRem)
      | some ((f, rem), _) =>
        let seatsOnFloor := min seatsToPlace rem
        let tier := (compute_adjacency_tier f assignments unitName).1
        let newAssignment : FloorAssignment :=
          { unit_name := unitName, building_id := f.building_id, tower_id := f.tower_id,
            floor_number := f.floor_number, seats_assigned := seatsOnFloor,
            adjacency_tier := tier }
        placeUnit fuel' (seatsToPlace - seatsOnFloor) unitName
          (assignments ++ [newAssignment]) (updateFloorRem f.floor_id seatsOnFloor floorRem)

/-- The per-unit fragmentation score computed after all placements. -/
def fragScoreOf (floorsUsed : ℕ) (allocatedSeats : ℤ) : ℚ :=
  if allocatedSeats = 0 then 0
  else
    let idealFloors : ℚ := max 1 ((allocatedSeats : ℚ) / 120)
    min 1 (((floorsUsed : ℚ) / idealFloors - 1) / 3)

/-- One outer-loop step of `assign_units_to_floors`: run the inner
placement loop for one unit. -/
def placeStep (st : List FloorAssignment × List (Floor × ℤ))
    (alloc : AllocationRecommendation) : List FloorAssignment × List (Floor × ℤ) :=
  placeUnit alloc.allocated_seats.toNat alloc.allocated_seats alloc.unit_name st.1 st.2

/-- `assign_units_to_floors`.  Returns the assignment list, the
fragmentation-score map (as an association list in unit order) and the
allocation records as mutated by the final scoring loop. -/
def assign_units_to_floors (allocations : List AllocationRecommendation) (floors : List Floor)
    (excludedFloorIds : List (String × ℤ)) :
    List FloorAssignment × List (String × ℚ) × List AllocationRecommendation :=
  let floorRem := (floors.filter (fun f => decide (f.floor_id ∉ excludedFloorIds))).map
    (fun f => (f, f.total_seats))
  let sortedAllocs := stableSort (fun a b => decide (b.allocated_seats ≤ a.allocated_seats))
    allocations
  let final := sortedAllocs.foldl placeStep ([], floorRem)
  let assignments := final.1
  let fragScores := allocations.map (fun alloc =>
    (alloc.unit_name, fragScoreOf (floorsUsedBy assignments alloc.unit_name) alloc.allocated_seats))
  let updatedAllocs := allocations.map (fun alloc =>
    { alloc with fragmentation_score :=
        fragScoreOf (floorsUsedBy assignments alloc.unit_name) alloc.allocated_seats })
  (assignments, fragScores, updatedAllocs)

/-- Total seats assigned on the floor with the given identity. -/
def seatsOnFloor (assignments : List FloorAssignment) (key : String × ℤ) : ℤ :=
  ((assignments.filter (fun a => decide (a.floorKey = key))).map (·.seats_assigned)).sum

/-- Total seats assigned to the unit with the given name. -/
def seatsOfUnit (assignments : List FloorAssignment) (unitName : String) : ℤ :=
  ((assignments.filter (fun a => a.unit_name == unitName)).map (·.seats_assigned)).sum

/-- Total capacity of the floors that survive the exclusion filter. -/
def includedCapacity (floors : List Floor) (excludedFloorIds : List (String × ℤ)) : ℤ :=
  ((floors.filter (fun f => decide (f.floor_id ∉ excludedFloorIds))).map (·.total_seats)).sum

/-- src/models/scenario.py `ScenarioOverride`. -/
structure ScenarioOverride where
  unit_name : String
  hc_growth_pct : Option ℚ := none
  attrition_pct : Option ℚ := none
  median_hc : Option ℚ := none
  max_hc : Option ℚ := none
  avg_rto_days : Option ℚ := none
  alloc_pct_override : Option ℚ := none
  deriving DecidableEq, Repr

/-- src/models/scenario.py `ScenarioParams`. -/
structure ScenarioParams where
  global_rto_mandate_days : Option ℚ := none
  excluded_floors : List (String × ℤ) := []
  capacity_reduction_pct : ℚ := 0
  deriving DecidableEq, Repr

/-- src/models/scenario.py `Scenario`.  `created_at`/`last_run_at` are
wall-clock datetimes; they are modelled as abstract `Option ℤ` stamps
(the engine never computes with them). -/
structure Scenario where
  scenario_id : String
  name : String
  description : String
  scenario_type : String
  planning_horizon_months : ℤ := 6
  created_at : Option ℤ := none
  is_locked : Bool := false
  unit_overrides : List (String × ScenarioOverride) := []
  params : ScenarioParams := {}
  allocation_results : List AllocationRecommendation := []
  floor_assignments : List FloorAssignment := []
  last_run_at : Option ℤ := none
  deriving DecidableEq, Repr

/-- `scenario.unit_overrides.get(name)`. -/
def lookupOverride (s : Scenario) (name : String) : Option ScenarioOverride :=
  (s.unit_overrides.find? (fun p => p.1 == name)).map (·.2)

/-- `apply_overrides`: per-unit growth/attrition and attendance
substitutions, then the global RTO mandate applied as a floor. -/
def apply_overrides (units : List Unit) (attendanceMap : List (String × AttendanceProfile))
    (scenario : Scenario) : List Unit × List (String × AttendanceProfile) :=
  let modifiedUnits := units.map (fun u =>
    match lookupOverride scenario u.unit_name with
    | some ov =>
      let u1 := match ov.hc_growth_pct with
        | some g => { u with hc_growth_pct := g }
        | none => u
      match ov.attrition_pct with
      | some a => { u1 with attrition_pct := a }
      | none => u1
    | none => u)
  let att1 := attendanceMap.map (fun p =>
    match lookupOverride scenario p.1 with
    | some ov =>
      let a1 := match ov.median_hc with
        | some m => { p.2 with monthly_median_hc := m }
        | none => p.2
      let a2 := match ov.max_hc with
        | some m => { a1 with monthly_max_hc := m }
        | none => a1
      let a3 := match ov.avg_rto_days with
        | some r => { a2 with avg_rto_days_per_week := r }
        | none => a2
      (p.1, a3)
    | none => p)
  let att2 := match scenario.params.global_rto_mandate_days with
    | some d => att1.map (fun p =>
        (p.1, { p.2 with avg_rto_days_per_week := max p.2.avg_rto_days_per_week d }))
    | none => att1
  (modifiedUnits, att2)

/-- `apply_floor_modifications`: drop excluded floors, then shrink the
remaining capacities by the reduction fraction (rounded, floored at 0). -/
def apply_floor_modifications (floors : List Floor) (scenario : Scenario) : List Floor :=
  let reduction := scenario.params.capacity_reduction_pct
  (floors.filter (fun f => decide (f.floor_id ∉ scenario.params.excluded_floors))).map (fun f =>
    if 0 < reduction then
      { f with total_seats := max 0 (pyRound ((f.total_seats : ℚ) * (1 - reduction))) }
    else f)

/-- One step of the manual allocation-% override loop of `run_scenario`:
the override replaces `recommended_alloc_pct` directly (no clamping) and
re-derives the demand from the overridden fraction. -/
def applyAllocOverride1 (scenario : Scenario) (units : List Unit)
    (alloc : AllocationRecommendation) : AllocationRecommendation :=
  match lookupOverride scenario alloc.unit_name with
  | some ov =>
    match ov.alloc_pct_override with
    | some pct =>
      let a1 := { alloc with
        is_overridden := true
        override_alloc_pct := some pct
        recommended_alloc_pct := pct }
      match findUnit units alloc.unit_name with
      | some u => { a1 with effective_demand_seats := pyRound (pct * (u.current_total_hc : ℚ)) }
      | none => a1
    | none => alloc
  | none => alloc

/-- The manual allocation-% override loop of `run_scenario`. -/
def applyAllocOverrides (scenario : Scenario) (units : List Unit)
    (allocations : List AllocationRecommendation) : List AllocationRecommendation :=
  allocations.map (applyAllocOverride1 scenario units)

/-- `run_scenario`: overrides, allocation pipeline, manual overrides,
second redistribution, spatial assignment, and result storage.  The
source stores `allocation_results` and `floor_assignments` but never
touches `last_run_at`. -/
def run_scenario (scenario : Scenario) (baseUnits : List Unit)
    (baseAttendance : List (String × AttendanceProfile)) (baseFloors : List Floor)
    (cfg : RuleConfig) : Scenario :=
  let ua := apply_overrides baseUnits baseAttendance scenario
  let units := ua.1
  let attendanceMap := ua.2
  let floors := apply_floor_modifications baseFloors scenario
  let allocations := run_allocation units attendanceMap floors
    scenario.planning_horizon_months cfg
  let allocations2 := applyAllocOverrides scenario units allocations
  let total_supply := (floors.map (·.total_seats)).sum
  let allocations3 := distribute_seats allocations2 units total_supply cfg
  let asg := assign_units_to_floors allocations3 floors scenario.params.excluded_floors
  { scenario with allocation_results := asg.2.2, floor_assignments := asg.1 }

/-- Outcome of one LP solve: `pulp.LpStatus[prob.status]`, the objective
value, and the solved `x[(unit, floor)]` values. -/
structure SolverOutcome where
  status : String
  objective : ℚ
  xval : String → String × ℤ → ℤ

/-- `OptimizationResult` (before/after tables, consolidation notes and the
savings summary are presentation-side derivations of the same data and
are elided). -/
structure OptimizationResult where
  status : String
  objective_value : ℚ
  assignments : List FloorAssignment
  unit_allocations : List (String × ℤ)
  message : String := ""

/-- `_compute_rto_demand`. -/
def compute_rto_demand (att : AttendanceProfile) (bufferMult : ℚ)
    (overrideRto : Option ℚ) : ℤ :=
  let rto := overrideRto.getD att.avg_rto_days_per_week
  let base := att.monthly_median_hc
  let peak := (att.monthly_max_hc - att.monthly_median_hc) * bufferMult
  max 1 (pyRound ((base + peak) * (rto / WORKING_DAYS_PER_WEEK)))

/-- The objective-specific demand basis of `optimize_allocation`. -/
def optimizerDemand (objective : String) (attMap : List (String × AttendanceProfile))
    (bufferMult : ℚ) (targetRto : Option ℚ)
    (allocations : List AllocationRecommendation) (u : String) : ℤ :=
  match attMap.find? (fun p => p.1 == u) with
  | some p =>
    if objective = "rto_based" then compute_rto_demand p.2 bufferMult none
    else if objective = "rto_whatif" ∧ targetRto.isSome then
      compute_rto_demand p.2 bufferMult targetRto
    else ((allocations.find? (fun a => a.unit_name == u)).map
      (·.effective_demand_seats)).getD 0
  | none => ((allocations.find? (fun a => a.unit_name == u)).map
      (·.effective_demand_seats)).getD 0

/-- The units that receive a minimum-guarantee constraint
(`round(min_guarantee_pct * demand) > 0`). -/
def guaranteedUnits (objective : String) (attMap : List (String × AttendanceProfile))
    (bufferMult : ℚ) (targetRto : Option ℚ)
    (allocations : List AllocationRecommendation)
    (minGuaranteePct : Option ℚ) : List String :=
  match minGuaranteePct with
  | some pct =>
    if 0 < pct then
      (allocations.map (·.unit_name)).filter (fun u =>
        decide (0 < pyRound (pct * (optimizerDemand objective attMap bufferMult targetRto
          allocations u : ℚ))))
    else []
  | none => []

/-- `optimize_allocation` control flow: solve once; if not optimal and
minimum-guarantee constraints exist, drop them and solve exactly once
more; a still-not-optimal status yields an explicit failure result.
Returns the result together with the number of solver calls made. -/
def optimize_allocation (allocations : List AllocationRecommendation) (floors : List Floor)
    (objective : String) (excludedFloorIds : List (String × ℤ))
    (attMap : List (String × AttendanceProfile)) (cfg : RuleConfig)
    (targetRto : Option ℚ) (minGuaranteePct : Option ℚ)
    (solve1 solve2 : SolverOutcome) : OptimizationResult × ℕ :=
  let bufferMult := cfg.peak_buffer_multiplier.getD PEAK_BUFFER_MULTIPLIER
  let availableFloors := floors.filter (fun f => decide (f.floor_id ∉ excludedFloorIds))
  let unitNames := allocations.map (·.unit_name)
  let guaranteed := guaranteedUnits objective attMap bufferMult targetRto allocations
    minGuaranteePct
  let firstStatus := solve1.status
  let relax := firstStatus ≠ "Optimal" ∧ guaranteed ≠ []
  let outcome := if relax then solve2 else solve1
  let solves := if relax then 2 else 1
  let status := outcome.status
  if status ≠ "Optimal" then
    ({ status := status, objective_value := 0, assignments := [], unit_allocations := [],
       message := "Optimization could not find a solution. Status: " ++ status }, solves)
  else
    let newAssignments := unitNames.flatMap (fun u =>
      availableFloors.filterMap (fun f =>
        let val := outcome.xval u f.floor_id
        if 0 < val then
          some { unit_name := u, building_id := f.building_id, tower_id := f.tower_id,
                 floor_number := f.floor_number, seats_assigned := val,
                 adjacency_tier := "optimized" }
        else none))
    let unitTotals := unitNames.map (fun u => (u, seatsOfUnit newAssignments u))
    let msg := "Optimization complete (" ++ objective ++ ")." ++
      (if relax then " Note: minimum seats guarantee was relaxed due to capacity constraints."
       else "")
    ({ status := status, objective_value := outcome.objective, assignments := newAssignments,
       unit_allocations := unitTotals, message := msg }, solves)

/-- Concrete records for witness instantiations. -/
def wUnitA : Unit :=
  { unit_name := "A", current_total_hc := 100, hc_growth_pct := 0, attrition_pct := 0.2 }

def wUnitB : Unit :=
  { unit_name := "B", current_total_hc := 100, hc_growth_pct := 0, attrition_pct := 0 }

def wRec (name : String) (demand : ℤ) : AllocationRecommendation :=
  { unit_name := name, recommended_alloc_pct := 0.8, effective_demand_seats := demand,
    allocated_seats := 0, seat_gap := 0, fragmentation_score := 0 }

def wFloor1 : Floor :=
  { building_id := "B1", building_name := "HQ", tower_id := "B1-T1", floor_number := 1,
    total_seats := 100 }

def wScenario : Scenario :=
  { scenario_id := "s1", name := "S", description := "", scenario_type := "custom" }

/-- A scenario carrying a direct allocation-fraction override of 2.0
(above `MAX_ALLOC_PCT = 1.5`) for unit B. -/
def wOvScenario : Scenario :=
  { scenario_id := "s2", name := "S2", description := "", scenario_type := "custom",
    unit_overrides := [("B", { unit_name := "B", alloc_pct_override := some 2 })] }

def wZeroUnit : Unit :=
  { unit_name := "Z", current_total_hc := 0, hc_growth_pct := 0, attrition_pct := 0 }

def wAttB : AttendanceProfile :=
  { unit_name := "B", monthly_median_hc := 60, monthly_max_hc := 75,
    avg_rto_days_per_week := 3 }

def cxAsgU : FloorAssignment :=
  { unit_name := "U", building_id := "B1", tower_id := "T1", floor_number := 1,
    seats_assigned := 10, adjacency_tier := "new_placement" }

/-- Same building (B1) as the existing assignment, different tower. -/
def cxFloorSameBuilding : Floor :=
  { building_id := "B1", building_name := "HQ", tower_id := "T2", floor_number := 1,
    total_seats := 50 }

/-- Different building (B2), different tower. -/
def cxFloorCrossBuilding : Floor :=
  { building_id := "B2", building_name := "TP", tower_id := "T3", floor_number := 1,
    total_seats := 50 }

/-- Modelled from the spec: the fragmentation formula as §4.3 words it,
`min(1, (floors_used / max(1, allocated_seats/ideal_floor_capacity) − 1) / 3)`
with a `0` override for seatless units, parameterized by the reference
seats-per-floor constant. -/
def specFragFormula (floorsUsed : ℕ) (allocatedSeats : ℤ) (idealFloorCapacity : ℚ) : ℚ :=
  if allocatedSeats = 0 then 0
  else min 1 (((floorsUsed : ℚ) / max 1 ((allocatedSeats : ℚ) / idealFloorCapacity) - 1) / 3)

def cxRec240 : AllocationRecommendation :=
  { unit_name := "C", recommended_alloc_pct := 1, effective_demand_seats := 240,
    allocated_seats := 240, seat_gap := 0, fragmentation_score := 0 }

def cxFloor240 : Floor :=
  { building_id := "B1", building_name := "HQ", tower_id := "T1", floor_number := 1,
    total_seats := 240 }

def wSolveFail : SolverOutcome :=
  { status := "Infeasible", objective := 0, xval := fun _ _ => 0 }

/-- Total remaining capacity in the floor-remaining table. -/
def sumRem (rem : List (Floor × ℤ)) : ℤ := (rem.map (·.2)).sum

/-- The invariant the placement loops maintain: remaining capacities are
non-negative, floor identities are distinct, each remaining capacity plus
the seats already assigned on that floor equals the capacity of the floor, and
every assignment sits on a floor of the table. -/
def PlacementInv (asg : List FloorAssignment) (rem : List (Floor × ℤ)) : Prop :=
  (∀ e ∈ rem, 0 ≤ e.2) ∧
  ((rem.map (fun e => e.1.floor_id)).Nodup) ∧
  (∀ e ∈ rem, e.2 + seatsOnFloor asg e.1.floor_id = e.1.total_seats) ∧
  (∀ a ∈ asg, a.floorKey ∈ rem.map (fun e => e.1.floor_id))

/-- Concrete allocation for the C2/C3 witnesses. -/
def cxRec80 : AllocationRecommendation :=
  { unit_name := "W", recommended_alloc_pct := 0.8, effective_demand_seats := 80,
    allocated_seats := 80, seat_gap := 0, fragmentation_score := 0 }

/-! ## Lemmas, claim theorems, witnesses and counterexamples -/

theorem pyRound_intCast (n : ℤ) : pyRound (n : ℚ) = n := by
  simp [pyRound]

theorem pyRound_nonneg {q : ℚ} (h : 0 ≤ q) : 0 ≤ pyRound q := by
  have hf : (0 : ℤ) ≤ ⌊q⌋ := Int.floor_nonneg.mpr h
  unfold pyRound
  dsimp only
  split
  · exact hf
  · split
    · omega
    · split <;> omega

theorem pyRound_le_add_half (q : ℚ) : (pyRound q : ℚ) ≤ q + 1/2 := by
  have hle : (⌊q⌋ : ℚ) ≤ q := Int.floor_le q
  unfold pyRound
  dsimp only
  split
  · linarith
  · rename_i h1
    push_neg at h1
    split
    · rename_i h2
      push_cast
      linarith
    · rename_i h2
      push_neg at h2
      have heq : q - (⌊q⌋ : ℚ) = 1/2 := le_antisymm h2 h1
      split
      · linarith
      · push_cast
        linarith

/-- If `q` is at most an integer `m`, its rounding is at most `m`. -/
theorem pyRound_le_int {q : ℚ} {m : ℤ} (h : q ≤ (m : ℚ)) : pyRound q ≤ m := by
  have h1 : (pyRound q : ℚ) ≤ (m : ℚ) + 1/2 := le_trans (pyRound_le_add_half q) (by linarith)
  have h2 : (pyRound q : ℚ) < (m : ℚ) + 1 := lt_of_le_of_lt h1 (by linarith)
  exact_mod_cast Int.lt_add_one_iff.mp (by exact_mod_cast h2)

theorem insertSorted_perm (le : α → α → Bool) (x : α) :
    ∀ l : List α, List.Perm (insertSorted le x l) (x :: l) := by
  intro l
  induction l with
  | nil => simp [insertSorted]
  | cons y ys ih =>
    simp only [insertSorted]
    split
    · exact List.Perm.refl _
    · exact (List.Perm.cons y ih).trans (List.Perm.swap x y ys)

theorem stableSort_perm (le : α → α → Bool) :
    ∀ l : List α, List.Perm (stableSort le l) l := by
  intro l
  induction l with
  | nil => exact List.Perm.refl _
  | cons x xs ih =>
    exact (insertSorted_perm le x (stableSort le xs)).trans (List.Perm.cons x ih)

theorem map_erase_perm [DecidableEq α] [DecidableEq β] (f : α → β) {b : α} :
    ∀ {l : List α}, b ∈ l → List.Perm ((l.erase b).map f) ((l.map f).erase (f b)) := by
  intro l hb
  induction l with
  | nil => cases hb
  | cons c cs ih =>
    by_cases hcb : c = b
    · subst hcb
      simp [List.erase_cons_head]
    · have hbcs : b ∈ cs := by
        cases List.mem_cons.mp hb with
        | inl h => exact absurd h.symm hcb
        | inr h => exact h
      rw [List.erase_cons_tail]
      · by_cases hfe : f c = f b
        · have h1 : List.Perm ((c :: cs.erase b).map f) (f c :: (cs.map f).erase (f b)) := by
            simpa using List.Perm.cons (f c) (ih hbcs)
          have h2 : f b ∈ cs.map f := List.mem_map_of_mem f hbcs
          have h3 : List.Perm (cs.map f) (f b :: (cs.map f).erase (f b)) :=
            List.perm_cons_erase h2
          have h4 : ((c :: cs).map f).erase (f b) = cs.map f := by
            simp [hfe, List.erase_cons_head]
          rw [h4]
          exact h1.trans (by rw [hfe]; exact h3.symm)
        · have h4 : ((c :: cs).map f).erase (f b) = f c :: (cs.map f).erase (f b) := by
            rw [List.map_cons, List.erase_cons_tail]
            simp [hfe]
          rw [h4]
          simpa using List.Perm.cons (f c) (ih hbcs)
      · simp [hcb]

theorem find?_erase_of_pred_false [DecidableEq α] (p : α → Bool) {b : α}
    (hpb : p b = false) : ∀ l : List α, List.find? p (l.erase b) = List.find? p l := by
  intro l
  induction l with
  | nil => rfl
  | cons c cs ih =>
    by_cases hcb : c = b
    · subst hcb
      rw [List.erase_cons_head, List.find?_cons, hpb]
    · rw [List.erase_cons_tail (by simp [hcb]), List.find?_cons, List.find?_cons]
      cases hpc : p c
      · exact ih
      · rfl

/-- The mutated-objects view: restoring original order by unit-name lookup
is a permutation of the updated list whenever the updated list carries the
same (duplicate-free) unit names. -/
theorem reorderByName_perm :
    ∀ (orig updated : List AllocationRecommendation),
      List.Perm (updated.map (·.unit_name)) (orig.map (·.unit_name)) →
      (orig.map (·.unit_name)).Nodup →
      List.Perm (reorderByName orig updated) updated := by
  intro orig
  induction orig with
  | nil =>
    intro updated h _
    have : updated.map (·.unit_name) = [] := List.Perm.eq_nil h
    have hupd : updated = [] := List.map_eq_nil_iff.mp this
    subst hupd
    exact List.Perm.refl _
  | cons a rest ih =>
    intro updated h hnd
    have hmem : a.unit_name ∈ updated.map (·.unit_name) := by
      exact h.mem_iff.mpr (by simp)
    have hex : ∃ b ∈ updated, (b.unit_name == a.unit_name) = true := by
      rcases List.mem_map.mp hmem with ⟨b, hb, hbn⟩
      exact ⟨b, hb, by simp [hbn]⟩
    have hsome : (updated.find? (fun b => b.unit_name == a.unit_name)).isSome := by
      rw [List.find?_isSome]
      exact hex
    rcases Option.isSome_iff_exists.mp hsome with ⟨b0, hb0⟩
    have hb0mem : b0 ∈ updated := List.mem_of_find?_eq_some hb0
    have hb0name : b0.unit_name = a.unit_name := by
      have := List.find?_some hb0
      simpa using this
    have hhead : reorderByName (a :: rest) updated =
        b0 :: reorderByName rest updated := by
      simp [reorderByName, hb0]
    have htail : reorderByName rest updated = reorderByName rest (updated.erase b0) := by
      unfold reorderByName
      apply List.map_congr_left
      intro x hx
      have hxname : x.unit_name ≠ a.unit_name := by
        intro hEq
        have : a.unit_name ∈ rest.map (·.unit_name) := by
          rw [← hEq]
          exact List.mem_map_of_mem _ hx
        exact (List.nodup_cons.mp hnd).1 this
      have hfalse : (fun b => b.unit_name == x.unit_name) b0 = false := by
        simp [hb0name]
        exact fun hc => hxname hc.symm
      rw [find?_erase_of_pred_false
        (fun (b : AllocationRecommendation) => b.unit_name == x.unit_name) hfalse]
    have hperm1 : List.Perm updated (b0 :: updated.erase b0) := List.perm_cons_erase hb0mem
    have hnames : List.Perm ((updated.erase b0).map (·.unit_name)) (rest.map (·.unit_name)) := by
      have h1 : List.Perm ((updated.erase b0).map (·.unit_name))
          ((updated.map (·.unit_name)).erase b0.unit_name) := map_erase_perm _ hb0mem
      have h2 : List.Perm ((updated.map (·.unit_name)).erase b0.unit_name)
          (((a :: rest).map (·.unit_name)).erase b0.unit_name) := (h.erase _)
      have h3 : ((a :: rest).map (·.unit_name)).erase b0.unit_name = rest.map (·.unit_name) := by
        simp [hb0name, List.erase_cons_head]
      exact (h1.trans h2).trans (by rw [h3])
    have hndrest : (rest.map (·.unit_name)).Nodup := (List.nodup_cons.mp hnd).2
    have ihres := ih (updated.erase b0) hnames hndrest
    rw [hhead, htail]
    exact (List.Perm.cons b0 ihres).trans hperm1.symm

/-- Order restoration preserves the name sequence exactly. -/
theorem reorderByName_names (orig updated : List AllocationRecommendation) :
    (reorderByName orig updated).map (·.unit_name) = orig.map (·.unit_name) := by
  unfold reorderByName
  rw [List.map_map]
  apply List.map_congr_left
  intro a _
  simp only [Function.comp]
  cases hfind : updated.find? (fun b => b.unit_name == a.unit_name) with
  | none => rfl
  | some b =>
    have := List.find?_some hfind
    simpa using this

theorem shrinkRelease_name (cf : ℚ) (units : List Unit) (a : AllocationRecommendation) :
    (shrinkRelease cf units a).unit_name = a.unit_name := by
  unfold shrinkRelease
  cases findUnit units a.unit_name with
  | none => rfl
  | some u =>
    dsimp only
    split <;> rfl

/-- The demand produced by Step B, expressed through `shrinkDemand`. -/
theorem shrinkRelease_demand (cf : ℚ) (units : List Unit) (a : AllocationRecommendation) :
    (shrinkRelease cf units a).effective_demand_seats =
      match findUnit units a.unit_name with
      | some u => shrinkDemand cf u.net_hc_change_pct a.effective_demand_seats
      | none => a.effective_demand_seats := by
  unfold shrinkRelease shrinkDemand
  cases findUnit units a.unit_name with
  | none => rfl
  | some u =>
    dsimp only
    split
    · rfl
    · rfl

theorem shrinkRelease_nonneg (cf : ℚ) (units : List Unit) (a : AllocationRecommendation)
    (h : 0 ≤ a.effective_demand_seats) : 0 ≤ (shrinkRelease cf units a).effective_demand_seats := by
  rw [shrinkRelease_demand]
  cases findUnit units a.unit_name with
  | none => exact h
  | some u =>
    unfold shrinkDemand
    dsimp only
    split
    · exact le_max_left 0 _
    · exact h

theorem proportionalFill_names :
    ∀ (l : List AllocationRecommendation) (remaining totalDemand : ℤ),
      (proportionalFill remaining totalDemand l).map (·.unit_name) = l.map (·.unit_name) := by
  intro l
  induction l with
  | nil => intro _ _; rfl
  | cons a rest ih =>
    intro remaining totalDemand
    simp only [proportionalFill, List.map_cons]
    rw [ih]

/-- Every record Step C produces keeps the unit name of its source record and
(post-release) demand. -/
theorem proportionalFill_pairs :
    ∀ (l : List AllocationRecommendation) (remaining totalDemand : ℤ),
      ∀ r ∈ proportionalFill remaining totalDemand l, ∃ a ∈ l,
        r.unit_name = a.unit_name ∧ r.effective_demand_seats = a.effective_demand_seats := by
  intro l
  induction l with
  | nil => intro _ _ r hr; cases hr
  | cons a rest ih =>
    intro remaining totalDemand r hr
    simp only [proportionalFill, List.mem_cons] at hr
    cases hr with
    | inl h => exact ⟨a, by simp, by rw [h], by rw [h]⟩
    | inr h =>
      rcases ih _ _ r h with ⟨a', ha', h1, h2⟩
      exact ⟨a', by simp [ha'], h1, h2⟩

/-- Bounds on one Step C share: non-negative, at most the demand of the unit,
at most the remaining pool. -/
theorem piAssigned_bounds (remaining totalD : ℤ) (a : AllocationRecommendation)
    (hd : 0 ≤ a.effective_demand_seats) (hrem : 0 ≤ remaining)
    (hdle : a.effective_demand_seats ≤ totalD) :
    0 ≤ piAssigned remaining totalD a ∧
    piAssigned remaining totalD a ≤ a.effective_demand_seats ∧
    piAssigned remaining totalD a ≤ remaining := by
  unfold piAssigned
  by_cases hpos : 0 < totalD
  · rw [if_pos hpos]
    have hshare : ((a.effective_demand_seats : ℚ) / (totalD : ℚ)) ≤ 1 := by
      rw [div_le_one (by exact_mod_cast hpos)]
      exact_mod_cast hdle
    have hshare0 : 0 ≤ ((a.effective_demand_seats : ℚ) / (totalD : ℚ)) := by
      apply div_nonneg
      · exact_mod_cast hd
      · exact_mod_cast le_of_lt hpos
    have hx0 : 0 ≤ (remaining : ℚ) * ((a.effective_demand_seats : ℚ) / (totalD : ℚ)) :=
      mul_nonneg (by exact_mod_cast hrem) hshare0
    have hxle : (remaining : ℚ) * ((a.effective_demand_seats : ℚ) / (totalD : ℚ)) ≤
        (remaining : ℚ) :=
      mul_le_of_le_one_right (by exact_mod_cast hrem) hshare
    refine ⟨le_min hd (pyRound_nonneg hx0), min_le_left _ _,
      le_trans (min_le_right _ _) (pyRound_le_int hxle)⟩
  · rw [if_neg hpos]
    exact ⟨le_refl 0, hd, hrem⟩

/-- Step C core invariants: the walk never hands out more than the
remaining pool, never more than the demand of a unit, and records
`gap = allocated - demand`. -/
theorem proportionalFill_spec :
    ∀ (l : List AllocationRecommendation) (remaining totalD : ℤ),
      (∀ a ∈ l, 0 ≤ a.effective_demand_seats) → 0 ≤ remaining →
      totalD = (l.map (·.effective_demand_seats)).sum →
      ((proportionalFill remaining totalD l).map (·.allocated_seats)).sum ≤ remaining ∧
      ∀ r ∈ proportionalFill remaining totalD l,
        0 ≤ r.allocated_seats ∧
        r.allocated_seats ≤ r.effective_demand_seats ∧
        r.seat_gap = r.allocated_seats - r.effective_demand_seats := by
  intro l
  induction l with
  | nil =>
    intro remaining totalD _ hrem _
    constructor
    · simpa [proportionalFill] using hrem
    · intro r hr; cases hr
  | cons a rest ih =>
    intro remaining totalD hdem hrem hTD
    have hd : 0 ≤ a.effective_demand_seats := hdem a (by simp)
    have htail : 0 ≤ (rest.map (·.effective_demand_seats)).sum := by
      apply List.sum_nonneg
      intro x hx
      rcases List.mem_map.mp hx with ⟨b, hb, hbx⟩
      rw [← hbx]
      exact hdem b (by simp [hb])
    have hTDval : totalD =
        a.effective_demand_seats + (rest.map (·.effective_demand_seats)).sum := by
      simpa using hTD
    obtain ⟨ha0, had, har⟩ := piAssigned_bounds remaining totalD a hd hrem (by omega)
    have hreq : totalD - a.effective_demand_seats =
        (rest.map (·.effective_demand_seats)).sum := by omega
    obtain ⟨ihsum, ihmem⟩ := ih (remaining - piAssigned remaining totalD a)
      (totalD - a.effective_demand_seats)
      (fun x hx => hdem x (by simp [hx])) (by omega) hreq
    constructor
    · simp only [proportionalFill, List.map_cons, List.sum_cons]
      omega
    · intro r hr
      simp only [proportionalFill, List.mem_cons] at hr
      cases hr with
      | inl h =>
        subst h
        exact ⟨ha0, had, rfl⟩
      | inr h =>
        exact ihmem r h

/-- The no-scarcity branch of `distribute_seats`. -/
theorem distributeSeats_nosc_eq (allocations : List AllocationRecommendation)
    (units : List Unit) (total_supply : ℤ) (cfg : RuleConfig)
    (hle : (allocations.map (·.effective_demand_seats)).sum ≤ total_supply) :
    distribute_seats allocations units total_supply cfg =
      allocations.map (fun a =>
        { a with allocated_seats := a.effective_demand_seats, seat_gap := 0 }) := by
  simp only [distribute_seats]
  rw [if_pos hle]

/-- The scarcity branch of `distribute_seats`, written out. -/
theorem distributeSeats_scarcity_eq (allocations : List AllocationRecommendation)
    (units : List Unit) (total_supply : ℤ) (cfg : RuleConfig)
    (hgt : total_supply < (allocations.map (·.effective_demand_seats)).sum) :
    distribute_seats allocations units total_supply cfg =
      reorderByName allocations
        (proportionalFill total_supply
          ((((stableSort (fun a b => keyLe (sortKey units a) (sortKey units b))
              allocations).map
            (shrinkRelease (cfg.shrink_contribution_factor.getD SHRINK_CONTRIBUTION_FACTOR)
              units)).map (·.effective_demand_seats)).sum)
          ((stableSort (fun a b => keyLe (sortKey units a) (sortKey units b)) allocations).map
            (shrinkRelease (cfg.shrink_contribution_factor.getD SHRINK_CONTRIBUTION_FACTOR)
              units))) := by
  simp only [distribute_seats]
  rw [if_neg (not_le.mpr hgt)]

/-- Names survive a run of `distribute_seats` in order. -/
theorem distributeSeats_names (allocations : List AllocationRecommendation)
    (units : List Unit) (total_supply : ℤ) (cfg : RuleConfig) :
    (distribute_seats allocations units total_supply cfg).map (·.unit_name) =
      allocations.map (·.unit_name) := by
  by_cases hle : (allocations.map (·.effective_demand_seats)).sum ≤ total_supply
  · rw [distributeSeats_nosc_eq _ _ _ _ hle, List.map_map]
    rfl
  · rw [distributeSeats_scarcity_eq _ _ _ _ (not_le.mp hle)]
    exact reorderByName_names _ _

/-- Post-release demands of the sorted, shrunk list are non-negative. -/
theorem reduced_demand_nonneg (allocations : List AllocationRecommendation)
    (units : List Unit) (cf : ℚ) (le : AllocationRecommendation → AllocationRecommendation → Bool)
    (hdem : ∀ a ∈ allocations, 0 ≤ a.effective_demand_seats) :
    ∀ a ∈ (stableSort le allocations).map (shrinkRelease cf units),
      0 ≤ a.effective_demand_seats := by
  intro a ha
  rcases List.mem_map.mp ha with ⟨b, hb, hba⟩
  have hbmem : b ∈ allocations := (stableSort_perm le allocations).mem_iff.mp hb
  rw [← hba]
  exact shrinkRelease_nonneg cf units b (hdem b hbmem)

/-- Name sequence of the shrunk sorted list is a permutation of the input
name sequence. -/
theorem reduced_names_perm (allocations : List AllocationRecommendation)
    (units : List Unit) (cf : ℚ)
    (le : AllocationRecommendation → AllocationRecommendation → Bool) :
    List.Perm (((stableSort le allocations).map (shrinkRelease cf units)).map (·.unit_name))
      (allocations.map (·.unit_name)) := by
  have h1 : ((stableSort le allocations).map (shrinkRelease cf units)).map (·.unit_name) =
      (stableSort le allocations).map (·.unit_name) := by
    rw [List.map_map]
    apply List.map_congr_left
    intro a _
    exact shrinkRelease_name cf units a
  rw [h1]
  exact (stableSort_perm le allocations).map _

/-- Postconditions of `distribute_seats`, both branches (shared lemma). -/
theorem distributeSeats_spec (allocations : List AllocationRecommendation)
    (units : List Unit) (total_supply : ℤ) (cfg : RuleConfig)
    (hdem : ∀ a ∈ allocations, 0 ≤ a.effective_demand_seats)
    (hsup : 0 ≤ total_supply)
    (hnames : (allocations.map (·.unit_name)).Nodup) :
    ((allocations.map (·.effective_demand_seats)).sum ≤ total_supply →
      ∀ r ∈ distribute_seats allocations units total_supply cfg,
        r.allocated_seats = r.effective_demand_seats ∧ r.seat_gap = 0) ∧
    (total_supply < (allocations.map (·.effective_demand_seats)).sum →
      ((distribute_seats allocations units total_supply cfg).map (·.allocated_seats)).sum
          ≤ total_supply ∧
      ∀ r ∈ distribute_seats allocations units total_supply cfg,
        r.allocated_seats ≤ r.effective_demand_seats ∧
        r.seat_gap = r.allocated_seats - r.effective_demand_seats ∧
        r.seat_gap ≤ 0) := by
  constructor
  · intro hle r hr
    rw [distributeSeats_nosc_eq allocations units total_supply cfg hle] at hr
    rcases List.mem_map.mp hr with ⟨a, _, har⟩
    rw [← har]
    exact ⟨rfl, rfl⟩
  · intro hgt
    rw [distributeSeats_scarcity_eq allocations units total_supply cfg hgt]
    set cf := cfg.shrink_contribution_factor.getD SHRINK_CONTRIBUTION_FACTOR with hcf
    set le := fun (a b : AllocationRecommendation) => keyLe (sortKey units a) (sortKey units b)
      with hledef
    set reduced := (stableSort le allocations).map (shrinkRelease cf units) with hreduced
    set filled := proportionalFill total_supply
      ((reduced.map (·.effective_demand_seats)).sum) reduced with hfilled
    have hdem_red := reduced_demand_nonneg allocations units cf le hdem
    obtain ⟨hsum, hmem⟩ := proportionalFill_spec reduced total_supply
      ((reduced.map (·.effective_demand_seats)).sum) hdem_red hsup rfl
    have hnperm : List.Perm (filled.map (·.unit_name)) (allocations.map (·.unit_name)) := by
      rw [hfilled, proportionalFill_names]
      exact reduced_names_perm allocations units cf le
    have hperm : List.Perm (reorderByName allocations filled) filled :=
      reorderByName_perm allocations filled hnperm hnames
    constructor
    · have := (hperm.map (·.allocated_seats)).sum_eq
      rw [this]
      exact hsum
    · intro r hr
      have hrf : r ∈ filled := hperm.mem_iff.mp hr
      obtain ⟨h0, h1, h2⟩ := hmem r hrf
      exact ⟨h1, h2, by omega⟩

/-- C1.  `distribute_seats` postconditions.  When total effective demand
fits the supply every unit is granted exactly its demand with zero gap;
under scarcity the allocated total never exceeds the supply, no unit gets
more than its (possibly shrinkage-reduced) demand, and the gap of every record
is `allocated - demand`, which is never positive. -/
theorem C1_distribute_seats (allocations : List AllocationRecommendation)
    (units : List Unit) (total_supply : ℤ) (cfg : RuleConfig)
    (hdem : ∀ a ∈ allocations, 0 ≤ a.effective_demand_seats)
    (hsup : 0 ≤ total_supply)
    (hnames : (allocations.map (·.unit_name)).Nodup) :
    ((allocations.map (·.effective_demand_seats)).sum ≤ total_supply →
      ∀ r ∈ distribute_seats allocations units total_supply cfg,
        r.allocated_seats = r.effective_demand_seats ∧ r.seat_gap = 0) ∧
    (total_supply < (allocations.map (·.effective_demand_seats)).sum →
      ((distribute_seats allocations units total_supply cfg).map (·.allocated_seats)).sum
          ≤ total_supply ∧
      ∀ r ∈ distribute_seats allocations units total_supply cfg,
        r.allocated_seats ≤ r.effective_demand_seats ∧
        r.seat_gap = r.allocated_seats - r.effective_demand_seats ∧
        r.seat_gap ≤ 0) :=
  distributeSeats_spec allocations units total_supply cfg hdem hsup hnames

/-- Witness for C1: a concrete scarce instance (demand 72 + 80 against
supply 100). -/
theorem C1_distribute_seats_witness :
    ((distribute_seats [wRec "A" 72, wRec "B" 80] [wUnitA, wUnitB] 100 {}).map
      (·.allocated_seats)).sum ≤ 100 :=
  ((C1_distribute_seats [wRec "A" 72, wRec "B" 80] [wUnitA, wUnitB] 100 {}
    (by decide) (by decide) (by decide)).2 (by decide)).1

theorem computeSimpleAllocation_name (u : Unit) (horizon : ℤ) (cfg : RuleConfig) :
    (compute_simple_allocation u horizon cfg).unit_name = u.unit_name := by
  simp only [compute_simple_allocation]
  split <;> rfl

theorem computeAllAllocations_names (units : List Unit)
    (att : List (String × AttendanceProfile)) (horizon : ℤ) (cfg : RuleConfig) :
    (compute_all_allocations units att horizon cfg).map (·.unit_name) =
      units.map (·.unit_name) := by
  unfold compute_all_allocations
  rw [List.map_map]
  apply List.map_congr_left
  intro u _
  exact computeSimpleAllocation_name u horizon cfg

theorem applyOverrides_unit_names (units : List Unit)
    (att : List (String × AttendanceProfile)) (scenario : Scenario) :
    ((apply_overrides units att scenario).1).map (·.unit_name) = units.map (·.unit_name) := by
  unfold apply_overrides
  rw [List.map_map]
  apply List.map_congr_left
  intro u _
  simp only [Function.comp]
  cases lookupOverride scenario u.unit_name with
  | none => rfl
  | some ov =>
    dsimp only
    cases ov.hc_growth_pct <;> cases ov.attrition_pct <;> rfl

theorem applyAllocOverride1_name (scenario : Scenario) (units : List Unit)
    (a : AllocationRecommendation) :
    (applyAllocOverride1 scenario units a).unit_name = a.unit_name := by
  unfold applyAllocOverride1
  cases lookupOverride scenario a.unit_name with
  | none => rfl
  | some ov =>
    dsimp only
    cases ov.alloc_pct_override with
    | none => rfl
    | some pct =>
      dsimp only
      cases findUnit units a.unit_name <;> rfl

theorem applyAllocOverrides_names (scenario : Scenario) (units : List Unit)
    (allocations : List AllocationRecommendation) :
    (applyAllocOverrides scenario units allocations).map (·.unit_name) =
      allocations.map (·.unit_name) := by
  unfold applyAllocOverrides
  rw [List.map_map]
  apply List.map_congr_left
  intro a _
  exact applyAllocOverride1_name scenario units a

/-- A record whose unit carries no allocation-fraction override passes
through the override loop unchanged. -/
theorem applyAllocOverrides_mem_no_override (scenario : Scenario) (units : List Unit)
    (allocations : List AllocationRecommendation) (u : String)
    (hno : ∀ ov, lookupOverride scenario u = some ov → ov.alloc_pct_override = none) :
    ∀ r ∈ applyAllocOverrides scenario units allocations,
      r.unit_name = u → r ∈ allocations := by
  intro r hr hru
  unfold applyAllocOverrides at hr
  rcases List.mem_map.mp hr with ⟨x, hx, hxr⟩
  have hxname : x.unit_name = u := by
    rw [← hru, ← hxr]
    exact (applyAllocOverride1_name scenario units x).symm
  have hfix : applyAllocOverride1 scenario units x = x := by
    unfold applyAllocOverride1
    rw [hxname]
    cases hlov : lookupOverride scenario u with
    | none => rfl
    | some ov =>
      dsimp only
      rw [hno ov hlov]
  rw [← hxr, hfix]
  exact hx

/-- `findUnit` resolves a member of a duplicate-free unit list to itself. -/
theorem findUnit_of_nodup (units : List Unit) (u : Unit)
    (hu : u ∈ units) (hnd : (units.map (·.unit_name)).Nodup) :
    findUnit units u.unit_name = some u := by
  have hsome : (units.find? (fun x => x.unit_name == u.unit_name)).isSome := by
    rw [List.find?_isSome]
    exact ⟨u, hu, by simp⟩
  rcases Option.isSome_iff_exists.mp hsome with ⟨y, hy⟩
  have hymem : y ∈ units := List.mem_of_find?_eq_some hy
  have hyname : y.unit_name = u.unit_name := by
    have := List.find?_some hy
    simpa using this
  have : y = u := List.inj_on_of_nodup_map hnd hymem hu hyname
  rw [findUnit, hy, this]

/-- Under scarcity, the output record of `distribute_seats` carrying a
given unit name carries the once-reduced demand of that unit. -/
theorem distributeSeats_demand_scarcity (allocations : List AllocationRecommendation)
    (units : List Unit) (total_supply : ℤ) (cfg : RuleConfig)
    (a0 : AllocationRecommendation) (ha0 : a0 ∈ allocations)
    (hgt : total_supply < (allocations.map (·.effective_demand_seats)).sum)
    (hnames : (allocations.map (·.unit_name)).Nodup) :
    ∀ r ∈ distribute_seats allocations units total_supply cfg,
      r.unit_name = a0.unit_name →
      r.effective_demand_seats =
        (shrinkRelease (cfg.shrink_contribution_factor.getD SHRINK_CONTRIBUTION_FACTOR)
          units a0).effective_demand_seats := by
  intro r hr hname
  rw [distributeSeats_scarcity_eq allocations units total_supply cfg hgt] at hr
  set cf := cfg.shrink_contribution_factor.getD SHRINK_CONTRIBUTION_FACTOR with hcf
  set le := fun (a b : AllocationRecommendation) => keyLe (sortKey units a) (sortKey units b)
    with hledef
  set reduced := (stableSort le allocations).map (shrinkRelease cf units) with hreduced
  set filled := proportionalFill total_supply
    ((reduced.map (·.effective_demand_seats)).sum) reduced with hfilled
  have hnperm : List.Perm (filled.map (·.unit_name)) (allocations.map (·.unit_name)) := by
    rw [hfilled, proportionalFill_names]
    exact reduced_names_perm allocations units cf le
  have hperm : List.Perm (reorderByName allocations filled) filled :=
    reorderByName_perm allocations filled hnperm hnames
  have hrf : r ∈ filled := hperm.mem_iff.mp hr
  obtain ⟨b, hb, hbn, hbd⟩ := proportionalFill_pairs reduced total_supply
    ((reduced.map (·.effective_demand_seats)).sum) r hrf
  rcases List.mem_map.mp hb with ⟨c, hc, hcb⟩
  have hcmem : c ∈ allocations := (stableSort_perm le allocations).mem_iff.mp hc
  have hcname : c.unit_name = a0.unit_name := by
    have h1 : b.unit_name = c.unit_name := by
      rw [← hcb]; exact shrinkRelease_name cf units c
    rw [← h1, ← hbn, hname]
  have hca : c = a0 := List.inj_on_of_nodup_map hnames hcmem ha0 hcname
  rw [hbd, ← hcb, hca]

/-- Every record of a reordered list comes from the updated list or from
the original. -/
theorem reorderByName_mem (orig updated : List AllocationRecommendation) :
    ∀ r ∈ reorderByName orig updated, r ∈ updated ∨ r ∈ orig := by
  intro r hr
  unfold reorderByName at hr
  rcases List.mem_map.mp hr with ⟨a, ha, har⟩
  cases hfind : updated.find? (fun b => b.unit_name == a.unit_name) with
  | none =>
    right
    rw [← har, hfind]
    exact ha
  | some b =>
    left
    rw [← har, hfind]
    exact List.mem_of_find?_eq_some hfind

/-- Demands coming out of `distribute_seats` stay non-negative. -/
theorem distributeSeats_demands_nonneg (allocations : List AllocationRecommendation)
    (units : List Unit) (total_supply : ℤ) (cfg : RuleConfig)
    (hdem : ∀ a ∈ allocations, 0 ≤ a.effective_demand_seats) :
    ∀ r ∈ distribute_seats allocations units total_supply cfg,
      0 ≤ r.effective_demand_seats := by
  intro r hr
  by_cases hle : (allocations.map (·.effective_demand_seats)).sum ≤ total_supply
  · rw [distributeSeats_nosc_eq allocations units total_supply cfg hle] at hr
    rcases List.mem_map.mp hr with ⟨a, ha, har⟩
    rw [← har]
    exact hdem a ha
  · rw [distributeSeats_scarcity_eq allocations units total_supply cfg (not_le.mp hle)] at hr
    set cf := cfg.shrink_contribution_factor.getD SHRINK_CONTRIBUTION_FACTOR with hcf
    set le := fun (a b : AllocationRecommendation) => keyLe (sortKey units a) (sortKey units b)
      with hledef
    set reduced := (stableSort le allocations).map (shrinkRelease cf units) with hreduced
    cases reorderByName_mem allocations
        (proportionalFill total_supply ((reduced.map (·.effective_demand_seats)).sum) reduced)
        r hr with
    | inl hf =>
      obtain ⟨b, hb, _, hbd⟩ := proportionalFill_pairs reduced total_supply
        ((reduced.map (·.effective_demand_seats)).sum) r hf
      rw [hbd]
      exact reduced_demand_nonneg allocations units cf le hdem b hb
    | inr ho =>
      exact hdem r ho

theorem computeAllAllocations_eq (units : List Unit)
    (att : List (String × AttendanceProfile)) (horizon : ℤ) (cfg : RuleConfig) :
    compute_all_allocations units att horizon cfg =
      units.map (fun u => compute_simple_allocation u horizon cfg) := rfl

theorem runAllocation_eq (units : List Unit) (att : List (String × AttendanceProfile))
    (floors : List Floor) (horizon : ℤ) (cfg : RuleConfig) :
    run_allocation units att floors horizon cfg =
      distribute_seats (compute_all_allocations units att horizon cfg) units
        ((floors.map (·.total_seats)).sum) cfg := rfl

/-- The record list stored by the spatial stage is the input list with
only the fragmentation scores rewritten. -/
theorem assignUnitsToFloors_results_eq (allocations : List AllocationRecommendation)
    (floors : List Floor) (excluded : List (String × ℤ)) :
    (assign_units_to_floors allocations floors excluded).2.2 =
      allocations.map (fun alloc =>
        { alloc with fragmentation_score :=
            fragScoreOf (floorsUsedBy (assign_units_to_floors allocations floors excluded).1
              alloc.unit_name) alloc.allocated_seats }) := rfl

theorem assignUnitsToFloors_results_pairs (allocations : List AllocationRecommendation)
    (floors : List Floor) (excluded : List (String × ℤ)) :
    ∀ r ∈ (assign_units_to_floors allocations floors excluded).2.2, ∃ x ∈ allocations,
      r.unit_name = x.unit_name ∧ r.effective_demand_seats = x.effective_demand_seats ∧
      r.allocated_seats = x.allocated_seats ∧ r.seat_gap = x.seat_gap := by
  intro r hr
  rw [assignUnitsToFloors_results_eq] at hr
  rcases List.mem_map.mp hr with ⟨x, hx, hxr⟩
  exact ⟨x, hx, by rw [← hxr], by rw [← hxr], by rw [← hxr], by rw [← hxr]⟩

/-- `run_scenario` written out as its pipeline. -/
theorem runScenario_eq (scenario : Scenario) (baseUnits : List Unit)
    (baseAttendance : List (String × AttendanceProfile)) (baseFloors : List Floor)
    (cfg : RuleConfig) :
    run_scenario scenario baseUnits baseAttendance baseFloors cfg =
      { scenario with
        allocation_results := (assign_units_to_floors
          (distribute_seats
            (applyAllocOverrides scenario (apply_overrides baseUnits baseAttendance scenario).1
              (run_allocation (apply_overrides baseUnits baseAttendance scenario).1
                (apply_overrides baseUnits baseAttendance scenario).2
                (apply_floor_modifications baseFloors scenario)
                scenario.planning_horizon_months cfg))
            (apply_overrides baseUnits baseAttendance scenario).1
            (((apply_floor_modifications baseFloors scenario).map (·.total_seats)).sum) cfg)
          (apply_floor_modifications baseFloors scenario) scenario.params.excluded_floors).2.2
        floor_assignments := (assign_units_to_floors
          (distribute_seats
            (applyAllocOverrides scenario (apply_overrides baseUnits baseAttendance scenario).1
              (run_allocation (apply_overrides baseUnits baseAttendance scenario).1
                (apply_overrides baseUnits baseAttendance scenario).2
                (apply_floor_modifications baseFloors scenario)
                scenario.planning_horizon_months cfg))
            (apply_overrides baseUnits baseAttendance scenario).1
            (((apply_floor_modifications baseFloors scenario).map (·.total_seats)).sum) cfg)
          (apply_floor_modifications baseFloors scenario)
          scenario.params.excluded_floors).1 } := rfl

/-- C10.  `run_scenario` runs `distribute_seats` twice; when both runs
take the scarcity branch, a shrinking unit without a manual override has
the shrinkage release applied in each run, so the demand its final
record carries is the twice-compounded reduction of its originally
computed demand, and its recorded gap is measured against that
twice-reduced demand. -/
theorem C10_run_scenario_compounds_shrinkage
    (scenario : Scenario) (baseUnits : List Unit)
    (baseAttendance : List (String × AttendanceProfile)) (baseFloors : List Floor)
    (cfg : RuleConfig) (u0 : Unit)
    (units : List Unit) (floors : List Floor) (supply : ℤ) (cf : ℚ)
    (allocs0 allocs2 : List AllocationRecommendation)
    (hunits : units = (apply_overrides baseUnits baseAttendance scenario).1)
    (hfloors : floors = apply_floor_modifications baseFloors scenario)
    (hsupply : supply = (floors.map (·.total_seats)).sum)
    (hcf : cf = cfg.shrink_contribution_factor.getD SHRINK_CONTRIBUTION_FACTOR)
    (hallocs0 : allocs0 = compute_all_allocations units
      (apply_overrides baseUnits baseAttendance scenario).2
      scenario.planning_horizon_months cfg)
    (hallocs2 : allocs2 = applyAllocOverrides scenario units
      (distribute_seats allocs0 units supply cfg))
    (hnames : (baseUnits.map (·.unit_name)).Nodup)
    (hu0 : u0 ∈ units)
    (hneg : u0.net_hc_change_pct < 0)
    (hnoov : ∀ ov, lookupOverride scenario u0.unit_name = some ov →
      ov.alloc_pct_override = none)
    (hsc1 : supply < (allocs0.map (·.effective_demand_seats)).sum)
    (hsc2 : supply < (allocs2.map (·.effective_demand_seats)).sum) :
    ∀ r ∈ (run_scenario scenario baseUnits baseAttendance baseFloors cfg).allocation_results,
      r.unit_name = u0.unit_name →
      r.effective_demand_seats =
        shrinkDemand cf u0.net_hc_change_pct
          (shrinkDemand cf u0.net_hc_change_pct
            (compute_simple_allocation u0 scenario.planning_horizon_months
              cfg).effective_demand_seats) := by
  intro r hr hrname
  subst hcf
  have hunitnames : units.map (·.unit_name) = baseUnits.map (·.unit_name) := by
    rw [hunits]
    exact applyOverrides_unit_names baseUnits baseAttendance scenario
  have hndunits : (units.map (·.unit_name)).Nodup := by rw [hunitnames]; exact hnames
  have hnames0 : allocs0.map (·.unit_name) = units.map (·.unit_name) := by
    rw [hallocs0]
    exact computeAllAllocations_names units _ _ cfg
  have hnd0 : (allocs0.map (·.unit_name)).Nodup := by rw [hnames0]; exact hndunits
  have hnames1 : (distribute_seats allocs0 units supply cfg).map (·.unit_name) =
      units.map (·.unit_name) := by
    rw [distributeSeats_names, hnames0]
  have hnames2 : allocs2.map (·.unit_name) = units.map (·.unit_name) := by
    rw [hallocs2, applyAllocOverrides_names]
    exact hnames1
  have hnd2 : (allocs2.map (·.unit_name)).Nodup := by rw [hnames2]; exact hndunits
  -- the originally computed record for u0
  have ha0' : compute_simple_allocation u0 scenario.planning_horizon_months cfg ∈ allocs0 := by
    rw [hallocs0, computeAllAllocations_eq]
    exact List.mem_map_of_mem _ hu0
  have ha0'name : (compute_simple_allocation u0 scenario.planning_horizon_months cfg).unit_name =
      u0.unit_name := computeSimpleAllocation_name u0 _ cfg
  have hfind : findUnit units u0.unit_name = some u0 := findUnit_of_nodup units u0 hu0 hndunits
  -- first reduction
  have hd1 := distributeSeats_demand_scarcity allocs0 units supply cfg
    (compute_simple_allocation u0 scenario.planning_horizon_months cfg) ha0' hsc1 hnd0
  -- a record named u0 exists in allocs2; it passed the override loop unchanged
  have hmem2 : u0.unit_name ∈ allocs2.map (·.unit_name) := by
    rw [hnames2]
    exact List.mem_map_of_mem _ hu0
  rcases List.mem_map.mp hmem2 with ⟨a2, ha2, ha2name⟩
  have ha2in1 : a2 ∈ distribute_seats allocs0 units supply cfg := by
    have := applyAllocOverrides_mem_no_override scenario units
      (distribute_seats allocs0 units supply cfg) u0.unit_name hnoov a2
      (by rw [hallocs2] at ha2; exact ha2) ha2name
    exact this
  have ha2dem : a2.effective_demand_seats =
      shrinkDemand (cfg.shrink_contribution_factor.getD SHRINK_CONTRIBUTION_FACTOR)
        u0.net_hc_change_pct
        (compute_simple_allocation u0 scenario.planning_horizon_months
          cfg).effective_demand_seats := by
    have h1 := hd1 a2 ha2in1 (by rw [ha2name, ha0'name])
    rw [h1, shrinkRelease_demand, ha0'name, hfind]
  -- second reduction
  have hd2 := distributeSeats_demand_scarcity allocs2 units supply cfg a2 ha2 hsc2 hnd2
  have hr' : r ∈ (assign_units_to_floors (distribute_seats allocs2 units supply cfg) floors
      scenario.params.excluded_floors).2.2 := by
    rw [runScenario_eq] at hr
    dsimp only at hr
    rw [← hunits, ← hfloors, ← hsupply] at hr
    rw [show run_allocation units (apply_overrides baseUnits baseAttendance scenario).2 floors
        scenario.planning_horizon_months cfg = distribute_seats allocs0 units supply cfg from by
      rw [runAllocation_eq, ← hallocs0, hsupply]] at hr
    rw [← hallocs2] at hr
    exact hr
  obtain ⟨x3, hx3, hxname, hxdem, _, _⟩ :=
    assignUnitsToFloors_results_pairs (distribute_seats allocs2 units supply cfg) floors
      scenario.params.excluded_floors r hr'
  have hx3dem := hd2 x3 hx3 (by rw [← hxname, hrname, ha2name])
  rw [hxdem, hx3dem, shrinkRelease_demand, ha2name, hfind, ha2dem]

/-- Witness for C10: one floor of 100 seats, units demanding 72 and 80
(scarcity both times); the shrinking unit ends with its demand reduced
twice (72 to 65 to 59). -/
theorem C10_run_scenario_compounds_shrinkage_witness :
    (((run_scenario wScenario [wUnitA, wUnitB] [] [wFloor1]
        {}).allocation_results.find? (fun r => r.unit_name == "A")).map
      (·.effective_demand_seats)) =
    some (shrinkDemand (({} : RuleConfig).shrink_contribution_factor.getD
        SHRINK_CONTRIBUTION_FACTOR) wUnitA.net_hc_change_pct
      (shrinkDemand (({} : RuleConfig).shrink_contribution_factor.getD
        SHRINK_CONTRIBUTION_FACTOR) wUnitA.net_hc_change_pct
        (compute_simple_allocation wUnitA wScenario.planning_horizon_months
          {}).effective_demand_seats)) := by
  have h := C10_run_scenario_compounds_shrinkage wScenario [wUnitA, wUnitB] [] [wFloor1] {}
    wUnitA _ _ _ _ _ _ rfl rfl rfl rfl rfl rfl (by decide)
    (of_decide_eq_true (by with_unfolding_all rfl))
    (of_decide_eq_true (by with_unfolding_all rfl))
    (by intro ov hov; simp [lookupOverride, wScenario] at hov)
    (of_decide_eq_true (by with_unfolding_all rfl))
    (of_decide_eq_true (by with_unfolding_all rfl))
  cases hf : (run_scenario wScenario [wUnitA, wUnitB] [] [wFloor1]
      {}).allocation_results.find? (fun r => r.unit_name == "A") with
  | none => exact absurd hf (of_decide_eq_true (by with_unfolding_all rfl))
  | some r =>
    have hrmem := List.mem_of_find?_eq_some hf
    have hrname : r.unit_name = wUnitA.unit_name := by
      have := List.find?_some hf
      simpa using this
    rw [Option.map_some']
    rw [h r hrmem hrname]

/-- C4 counterexample: the zero-headcount path stores fraction 0, which is
below `min_alloc_pct = 0.20`, and the `run_scenario` direct override
stores 2.0, which is above `max_alloc_pct = 1.50`: the stored fraction is
not confined to `[min_alloc_pct, max_alloc_pct]` on either path. -/
theorem C4_counterexample :
    (compute_simple_allocation wZeroUnit 6 {}).recommended_alloc_pct = 0 ∧
    (0 : ℚ) < MIN_ALLOC_PCT ∧
    (((run_scenario wOvScenario [wUnitB] [] [wFloor1] {}).allocation_results.find?
      (fun r => r.unit_name == "B")).map (·.recommended_alloc_pct)) = some 2 ∧
    MAX_ALLOC_PCT < 2 := by
  refine ⟨rfl, ?_, ?_, ?_⟩
  · exact of_decide_eq_true (by with_unfolding_all rfl)
  · exact of_decide_eq_true (by with_unfolding_all rfl)
  · exact of_decide_eq_true (by with_unfolding_all rfl)

/-- C4 amended: for a nonzero-headcount unit the fraction computed by
`compute_simple_allocation` and `compute_recommended_allocation` is
clamped into `[min_alloc_pct, max_alloc_pct]` (whenever min is at most
max); the zero-headcount path stores 0 and the `run_scenario` direct
override is stored without clamping. -/
theorem C4_clamped_amended (unit : Unit) (att : AttendanceProfile) (horizon : ℤ)
    (cfg : RuleConfig)
    (hmm : cfg.min_alloc_pct.getD MIN_ALLOC_PCT ≤ cfg.max_alloc_pct.getD MAX_ALLOC_PCT)
    (hhc : unit.current_total_hc ≠ 0) :
    (cfg.min_alloc_pct.getD MIN_ALLOC_PCT ≤
        (compute_simple_allocation unit horizon cfg).recommended_alloc_pct ∧
      (compute_simple_allocation unit horizon cfg).recommended_alloc_pct ≤
        cfg.max_alloc_pct.getD MAX_ALLOC_PCT) ∧
    (cfg.min_alloc_pct.getD MIN_ALLOC_PCT ≤
        (compute_recommended_allocation unit att horizon cfg).recommended_alloc_pct ∧
      (compute_recommended_allocation unit att horizon cfg).recommended_alloc_pct ≤
        cfg.max_alloc_pct.getD MAX_ALLOC_PCT) := by
  constructor
  · simp only [compute_simple_allocation]
    rw [if_neg hhc]
    exact ⟨le_max_left _ _, max_le hmm (min_le_left _ _)⟩
  · simp only [compute_recommended_allocation]
    rw [if_neg hhc]
    exact ⟨le_max_left _ _, max_le hmm (min_le_left _ _)⟩

/-- Witness for the amended C4 at a concrete nonzero-headcount unit. -/
theorem C4_clamped_amended_witness :
    MIN_ALLOC_PCT ≤ (compute_simple_allocation wUnitB 6 {}).recommended_alloc_pct ∧
    (compute_recommended_allocation wUnitB wAttB 6 {}).recommended_alloc_pct ≤
      MAX_ALLOC_PCT := by
  have h := C4_clamped_amended wUnitB wAttB 6 {}
    (of_decide_eq_true (by with_unfolding_all rfl)) (by decide)
  exact ⟨h.1.1, h.2.2⟩

/-- C6 (code bug evidence): `compute_recommended_allocation` is entirely
insensitive to the attendance stability coefficient — the configured
stability discount (`STABILITY_DISCOUNT_THRESHOLD`,
`STABILITY_DISCOUNT_FACTOR`) is never consulted, so the peak buffer of a
highly stable unit is not discounted. -/
theorem C6_stability_discount_never_applied (unit : Unit) (att : AttendanceProfile)
    (horizon : ℤ) (cfg : RuleConfig) (s1 s2 : Option ℚ) :
    compute_recommended_allocation unit { att with attendance_stability := s1 } horizon cfg =
      compute_recommended_allocation unit { att with attendance_stability := s2 } horizon cfg :=
  rfl

/-- C7 counterexample: with an existing assignment in building B1 tower
T1, a candidate floor in the same building but another tower scores the
same adjacency bonus (0) as a cross-building floor — not strictly
higher.  The heuristic has no same-building tier. -/
theorem C7_counterexample :
    (compute_adjacency_tier cxFloorSameBuilding [cxAsgU] "U").2 = 0 ∧
    (compute_adjacency_tier cxFloorCrossBuilding [cxAsgU] "U").2 = 0 ∧
    ¬ ((compute_adjacency_tier cxFloorCrossBuilding [cxAsgU] "U").2 <
        (compute_adjacency_tier cxFloorSameBuilding [cxAsgU] "U").2) := by
  refine ⟨by decide, by decide, by decide⟩

theorem computeAdjacencyTier_same_floor (f : Floor) (existing : List FloorAssignment)
    (u : String)
    (h1 : ∃ a ∈ existing, a.unit_name = u ∧ a.tower_id = f.tower_id ∧
      a.floor_number = f.floor_number) :
    compute_adjacency_tier f existing u = ("same_floor", ADJACENCY_BONUS_SAME_FLOOR) := by
  rcases h1 with ⟨a, ha, hu, ht, hf⟩
  unfold compute_adjacency_tier
  have hmem : a ∈ existing.filter (fun x => x.unit_name == u) :=
    List.mem_filter.mpr ⟨ha, by simp [hu]⟩
  rw [if_neg (by exact List.ne_nil_of_mem hmem ∘ List.isEmpty_iff.mp)]
  rw [if_pos]
  rw [List.any_eq_true]
  exact ⟨a, hmem, by simp [ht, hf]⟩

theorem computeAdjacencyTier_adjacent (f : Floor) (existing : List FloorAssignment)
    (u : String)
    (hsf : ¬ ∃ a ∈ existing, a.unit_name = u ∧ a.tower_id = f.tower_id ∧
      a.floor_number = f.floor_number)
    (hadj : ∃ a ∈ existing, a.unit_name = u ∧ a.tower_id = f.tower_id ∧
      (a.floor_number - f.floor_number).natAbs = 1) :
    compute_adjacency_tier f existing u = ("adjacent", ADJACENCY_BONUS_ADJACENT_FLOOR) := by
  rcases hadj with ⟨a, ha, hu, ht, hd⟩
  unfold compute_adjacency_tier
  have hmem : a ∈ existing.filter (fun x => x.unit_name == u) :=
    List.mem_filter.mpr ⟨ha, by simp [hu]⟩
  rw [if_neg (by exact List.ne_nil_of_mem hmem ∘ List.isEmpty_iff.mp)]
  rw [if_neg, if_pos]
  · rw [List.any_eq_true]
    exact ⟨a, hmem, by simp [ht, hd]⟩
  · rw [List.any_eq_true]
    rintro ⟨b, hb, hbp⟩
    rcases List.mem_filter.mp hb with ⟨hbmem, hbu⟩
    apply hsf
    refine ⟨b, hbmem, by simpa using hbu, ?_, ?_⟩
    · have := (Bool.and_eq_true _ _).mp hbp
      simpa using this.1
    · have := (Bool.and_eq_true _ _).mp hbp
      simpa using this.2

theorem computeAdjacencyTier_same_tower (f : Floor) (existing : List FloorAssignment)
    (u : String)
    (hsf : ¬ ∃ a ∈ existing, a.unit_name = u ∧ a.tower_id = f.tower_id ∧
      a.floor_number = f.floor_number)
    (hadj : ¬ ∃ a ∈ existing, a.unit_name = u ∧ a.tower_id = f.tower_id ∧
      (a.floor_number - f.floor_number).natAbs = 1)
    (hst : ∃ a ∈ existing, a.unit_name = u ∧ a.tower_id = f.tower_id) :
    compute_adjacency_tier f existing u = ("same_tower", ADJACENCY_BONUS_SAME_TOWER) := by
  rcases hst with ⟨a, ha, hu, ht⟩
  unfold compute_adjacency_tier
  have hmem : a ∈ existing.filter (fun x => x.unit_name == u) :=
    List.mem_filter.mpr ⟨ha, by simp [hu]⟩
  rw [if_neg (by exact List.ne_nil_of_mem hmem ∘ List.isEmpty_iff.mp)]
  rw [if_neg, if_neg, if_pos]
  · rw [List.any_eq_true]
    exact ⟨a, hmem, by simp [ht]⟩
  · rw [List.any_eq_true]
    rintro ⟨b, hb, hbp⟩
    rcases List.mem_filter.mp hb with ⟨hbmem, hbu⟩
    apply hadj
    obtain ⟨hb1, hb2⟩ := (Bool.and_eq_true _ _).mp hbp
    exact ⟨b, hbmem, by simpa using hbu, by simpa using hb1, by simpa using hb2⟩
  · rw [List.any_eq_true]
    rintro ⟨b, hb, hbp⟩
    rcases List.mem_filter.mp hb with ⟨hbmem, hbu⟩
    apply hsf
    obtain ⟨hb1, hb2⟩ := (Bool.and_eq_true _ _).mp hbp
    exact ⟨b, hbmem, by simpa using hbu, by simpa using hb1, by simpa using hb2⟩

theorem computeAdjacencyTier_cross_tower (f : Floor) (existing : List FloorAssignment)
    (u : String)
    (hex : ∃ a ∈ existing, a.unit_name = u)
    (hst : ¬ ∃ a ∈ existing, a.unit_name = u ∧ a.tower_id = f.tower_id) :
    compute_adjacency_tier f existing u = ("cross_tower", ADJACENCY_BONUS_CROSS_TOWER) := by
  rcases hex with ⟨a, ha, hu⟩
  unfold compute_adjacency_tier
  have hmem : a ∈ existing.filter (fun x => x.unit_name == u) :=
    List.mem_filter.mpr ⟨ha, by simp [hu]⟩
  rw [if_neg (by exact List.ne_nil_of_mem hmem ∘ List.isEmpty_iff.mp)]
  have hnot : ∀ (p : FloorAssignment → Bool),
      (∀ b ∈ existing, b.unit_name = u → b.tower_id = f.tower_id → False) →
      True := fun _ _ => trivial
  have hto : ∀ b ∈ existing.filter (fun x => x.unit_name == u),
      (b.tower_id == f.tower_id) = false := by
    intro b hb
    rcases List.mem_filter.mp hb with ⟨hbmem, hbu⟩
    by_contra hcon
    have hbt : b.tower_id = f.tower_id := by
      have := Bool.not_eq_false _ |>.mp hcon
      simpa using this
    exact hst ⟨b, hbmem, by simpa using hbu, hbt⟩
  rw [if_neg, if_neg, if_neg]
  · rw [List.any_eq_true]
    rintro ⟨b, hb, hbp⟩
    rw [hto b hb] at hbp
    cases hbp
  · rw [List.any_eq_true]
    rintro ⟨b, hb, hbp⟩
    obtain ⟨hb1, _⟩ := (Bool.and_eq_true _ _).mp hbp
    rw [hto b hb] at hb1
    cases hb1
  · rw [List.any_eq_true]
    rintro ⟨b, hb, hbp⟩
    obtain ⟨hb1, _⟩ := (Bool.and_eq_true _ _).mp hbp
    rw [hto b hb] at hb1
    cases hb1

/-- C7 amended: the adjacency bonus follows a FOUR-level, strictly
ordered tier table — same floor (100) > adjacent floor in the same
tower (60) > same tower (30) > everything else (0).  Any floor with no
same-tower assignment scores 0, whether it shares the building or not:
the heuristic has no same-building tier (only the optimizer cohesion
weights do). -/
theorem C7_adjacency_tiers_amended (existing : List FloorAssignment) (u : String)
    (f1 f2 f3 f4 : Floor)
    (h1 : ∃ a ∈ existing, a.unit_name = u ∧ a.tower_id = f1.tower_id ∧
      a.floor_number = f1.floor_number)
    (h2sf : ¬ ∃ a ∈ existing, a.unit_name = u ∧ a.tower_id = f2.tower_id ∧
      a.floor_number = f2.floor_number)
    (h2adj : ∃ a ∈ existing, a.unit_name = u ∧ a.tower_id = f2.tower_id ∧
      (a.floor_number - f2.floor_number).natAbs = 1)
    (h3sf : ¬ ∃ a ∈ existing, a.unit_name = u ∧ a.tower_id = f3.tower_id ∧
      a.floor_number = f3.floor_number)
    (h3adj : ¬ ∃ a ∈ existing, a.unit_name = u ∧ a.tower_id = f3.tower_id ∧
      (a.floor_number - f3.floor_number).natAbs = 1)
    (h3st : ∃ a ∈ existing, a.unit_name = u ∧ a.tower_id = f3.tower_id)
    (h4 : ¬ ∃ a ∈ existing, a.unit_name = u ∧ a.tower_id = f4.tower_id) :
    (compute_adjacency_tier f2 existing u).2 < (compute_adjacency_tier f1 existing u).2 ∧
    (compute_adjacency_tier f3 existing u).2 < (compute_adjacency_tier f2 existing u).2 ∧
    (compute_adjacency_tier f4 existing u).2 < (compute_adjacency_tier f3 existing u).2 ∧
    (compute_adjacency_tier f4 existing u).2 = 0 := by
  have hex : ∃ a ∈ existing, a.unit_name = u := by
    rcases h1 with ⟨a, ha, hu, _⟩
    exact ⟨a, ha, hu⟩
  rw [computeAdjacencyTier_same_floor f1 existing u h1,
    computeAdjacencyTier_adjacent f2 existing u h2sf h2adj,
    computeAdjacencyTier_same_tower f3 existing u h3sf h3adj h3st,
    computeAdjacencyTier_cross_tower f4 existing u hex h4]
  refine ⟨by decide, by decide, by decide, rfl⟩

/-- Witness for the amended C7 at concrete floors. -/
theorem C7_adjacency_tiers_amended_witness :
    (compute_adjacency_tier
        { building_id := "B1", building_name := "HQ", tower_id := "T1", floor_number := 2,
          total_seats := 50 } [cxAsgU] "U").2 <
      (compute_adjacency_tier
        { building_id := "B1", building_name := "HQ", tower_id := "T1", floor_number := 1,
          total_seats := 50 } [cxAsgU] "U").2 ∧
    (compute_adjacency_tier cxFloorCrossBuilding [cxAsgU] "U").2 = 0 := by
  have h := C7_adjacency_tiers_amended [cxAsgU] "U"
    { building_id := "B1", building_name := "HQ", tower_id := "T1", floor_number := 1,
      total_seats := 50 }
    { building_id := "B1", building_name := "HQ", tower_id := "T1", floor_number := 2,
      total_seats := 50 }
    { building_id := "B1", building_name := "HQ", tower_id := "T1", floor_number := 5,
      total_seats := 50 }
    cxFloorCrossBuilding
    (by decide) (by decide) (by decide) (by decide) (by decide) (by decide) (by decide)
  exact ⟨h.1, h.2.2.2⟩

/-- C8 counterexample: a unit with 240 allocated seats placed entirely on
one 240-seat floor gets fragmentation score `-1/6`, which is below 0 —
the score is not confined to `[0, 1]`. -/
theorem C8_counterexample :
    (assign_units_to_floors [cxRec240] [cxFloor240] []).2.1 = [("C", -(1/6 : ℚ))] ∧
    -(1/6 : ℚ) < 0 := by
  constructor
  · exact of_decide_eq_true (by with_unfolding_all rfl)
  · exact of_decide_eq_true (by with_unfolding_all rfl)

/-- C8 amended: every fragmentation score the spatial stage emits equals
the spec formula instantiated with the fixed reference capacity 120, is
0 for a unit with no allocated seats, and is at most 1 — but it is not
bounded below by 0. -/
theorem C8_fragmentation_amended (allocations : List AllocationRecommendation)
    (floors : List Floor) (excluded : List (String × ℤ)) :
    ∀ p ∈ (assign_units_to_floors allocations floors excluded).2.1,
      ∃ alloc ∈ allocations,
        p.1 = alloc.unit_name ∧
        p.2 = specFragFormula
          (floorsUsedBy (assign_units_to_floors allocations floors excluded).1 alloc.unit_name)
          alloc.allocated_seats 120 ∧
        p.2 ≤ 1 ∧
        (alloc.allocated_seats = 0 → p.2 = 0) := by
  intro p hp
  have hmaps : (assign_units_to_floors allocations floors excluded).2.1 =
      allocations.map (fun alloc =>
        (alloc.unit_name,
          fragScoreOf (floorsUsedBy (assign_units_to_floors allocations floors excluded).1
            alloc.unit_name) alloc.allocated_seats)) := rfl
  rw [hmaps] at hp
  rcases List.mem_map.mp hp with ⟨alloc, halloc, hpe⟩
  refine ⟨alloc, halloc, by rw [← hpe], ?_, ?_, ?_⟩
  · rw [← hpe]
    show fragScoreOf _ _ = specFragFormula _ _ _
    unfold fragScoreOf specFragFormula
    rfl
  · rw [← hpe]
    show fragScoreOf _ _ ≤ 1
    unfold fragScoreOf
    split
    · exact zero_le_one
    · exact min_le_left _ _
  · intro h0
    rw [← hpe]
    show fragScoreOf _ _ = 0
    unfold fragScoreOf
    rw [if_pos h0]

/-- Witness for the amended C8, applied at the concrete one-floor input
(the emitted score `-1/6` is at most 1). -/
theorem C8_fragmentation_amended_witness :
    -(1/6 : ℚ) ≤ 1 := by
  have h := C8_fragmentation_amended [cxRec240] [cxFloor240] []
    ("C", -(1/6 : ℚ)) (of_decide_eq_true (by with_unfolding_all rfl))
  obtain ⟨alloc, _, _, _, hle, _⟩ := h
  exact hle

/-- C9 (code bug evidence): `run_scenario` leaves `last_run_at` exactly as
it found it on every input, while a concrete completed run does store
nonempty allocation results and floor assignments, leaving
`last_run_at = none` — the staleness checks reading `last_run_at` can
never see a run. -/
theorem C9_run_scenario_never_sets_timestamp :
    (∀ (scenario : Scenario) (baseUnits : List Unit)
        (baseAttendance : List (String × AttendanceProfile)) (baseFloors : List Floor)
        (cfg : RuleConfig),
      (run_scenario scenario baseUnits baseAttendance baseFloors cfg).last_run_at =
        scenario.last_run_at) ∧
    (run_scenario wScenario [wUnitA, wUnitB] [] [wFloor1] {}).allocation_results ≠ [] ∧
    (run_scenario wScenario [wUnitA, wUnitB] [] [wFloor1] {}).floor_assignments ≠ [] ∧
    wScenario.last_run_at = none ∧
    (run_scenario wScenario [wUnitA, wUnitB] [] [wFloor1] {}).last_run_at = none := by
  refine ⟨fun _ _ _ _ _ => rfl, ?_, ?_, rfl, rfl⟩
  · exact of_decide_eq_true (by with_unfolding_all rfl)
  · exact of_decide_eq_true (by with_unfolding_all rfl)

/-- C5: the solve/relax control flow of `optimize_allocation`.  With the
LP solver modelled as an oracle: if the first solve is not optimal and
minimum-guarantee constraints exist, exactly one more solve happens
(2 calls total, and the relaxed outcome decides the final status);
otherwise there is exactly one call.  Whenever the final status is not
optimal the function returns — it never throws — an
`OptimizationResult` carrying that status, no assignments, no unit
allocations, objective 0 and a diagnostic message. -/
theorem C5_optimizer_relaxation (allocations : List AllocationRecommendation)
    (floors : List Floor) (objective : String) (excluded : List (String × ℤ))
    (attMap : List (String × AttendanceProfile)) (cfg : RuleConfig)
    (targetRto : Option ℚ) (minGuaranteePct : Option ℚ) (solve1 solve2 : SolverOutcome) :
    ((solve1.status ≠ "Optimal" ∧
        guaranteedUnits objective attMap (cfg.peak_buffer_multiplier.getD PEAK_BUFFER_MULTIPLIER)
          targetRto allocations minGuaranteePct ≠ []) →
      (optimize_allocation allocations floors objective excluded attMap cfg targetRto
          minGuaranteePct solve1 solve2).2 = 2 ∧
      (solve2.status ≠ "Optimal" →
        (optimize_allocation allocations floors objective excluded attMap cfg targetRto
            minGuaranteePct solve1 solve2).1 =
          { status := solve2.status, objective_value := 0, assignments := [],
            unit_allocations := [],
            message := "Optimization could not find a solution. Status: " ++
              solve2.status })) ∧
    (¬ (solve1.status ≠ "Optimal" ∧
        guaranteedUnits objective attMap (cfg.peak_buffer_multiplier.getD PEAK_BUFFER_MULTIPLIER)
          targetRto allocations minGuaranteePct ≠ []) →
      (optimize_allocation allocations floors objective excluded attMap cfg targetRto
          minGuaranteePct solve1 solve2).2 = 1 ∧
      (solve1.status ≠ "Optimal" →
        (optimize_allocation allocations floors objective excluded attMap cfg targetRto
            minGuaranteePct solve1 solve2).1 =
          { status := solve1.status, objective_value := 0, assignments := [],
            unit_allocations := [],
            message := "Optimization could not find a solution. Status: " ++
              solve1.status })) := by
  constructor
  · intro hrel
    constructor
    · simp only [optimize_allocation]
      rw [if_pos hrel]
      split <;> rfl
    · intro hs2
      simp only [optimize_allocation]
      rw [if_pos hrel]
      rw [if_pos hs2]
  · intro hrel
    constructor
    · simp only [optimize_allocation]
      rw [if_neg hrel]
      split <;> rfl
    · intro hs1
      simp only [optimize_allocation]
      rw [if_neg hrel]
      rw [if_pos hs1]

/-- Witness for C5: one unit demanding 10 seats with a 50% minimum
guarantee, both solves infeasible — two solver calls, failure result
with empty assignments. -/
theorem C5_optimizer_relaxation_witness :
    (optimize_allocation [wRec "A" 10] [wFloor1] "optimal_placement" [] [] {} none
        (some 0.5) wSolveFail wSolveFail).2 = 2 ∧
    (optimize_allocation [wRec "A" 10] [wFloor1] "optimal_placement" [] [] {} none
        (some 0.5) wSolveFail wSolveFail).1.assignments = [] ∧
    (optimize_allocation [wRec "A" 10] [wFloor1] "optimal_placement" [] [] {} none
        (some 0.5) wSolveFail wSolveFail).1.status = "Infeasible" := by
  have h := (C5_optimizer_relaxation [wRec "A" 10] [wFloor1] "optimal_placement" [] [] {}
    none (some 0.5) wSolveFail wSolveFail).1
    ⟨by decide, of_decide_eq_true (by with_unfolding_all rfl)⟩
  refine ⟨h.1, ?_, ?_⟩
  · rw [h.2 (by decide)]
  · rw [h.2 (by decide)]
    rfl

theorem seatsOnFloor_append (l1 l2 : List FloorAssignment) (k : String × ℤ) :
    seatsOnFloor (l1 ++ l2) k = seatsOnFloor l1 k + seatsOnFloor l2 k := by
  simp [seatsOnFloor, List.filter_append]

theorem seatsOnFloor_nil (k : String × ℤ) : seatsOnFloor [] k = 0 := rfl

theorem seatsOnFloor_single (a : FloorAssignment) (k : String × ℤ) :
    seatsOnFloor [a] k = if a.floorKey = k then a.seats_assigned else 0 := by
  simp only [seatsOnFloor, List.filter]
  split
  · rename_i h
    rw [if_pos (by simpa using h)]
    simp
  · rename_i h
    rw [if_neg (by simpa using h)]
    rfl

theorem seatsOfUnit_append (l1 l2 : List FloorAssignment) (u : String) :
    seatsOfUnit (l1 ++ l2) u = seatsOfUnit l1 u + seatsOfUnit l2 u := by
  simp [seatsOfUnit, List.filter_append]

theorem seatsOfUnit_of_all (l : List FloorAssignment) (u : String)
    (h : ∀ a ∈ l, a.unit_name = u) :
    seatsOfUnit l u = (l.map (·.seats_assigned)).sum := by
  unfold seatsOfUnit
  rw [List.filter_eq_self.mpr]
  intro a ha
  simp [h a ha]

theorem seatsOfUnit_of_none (l : List FloorAssignment) (u : String)
    (h : ∀ a ∈ l, a.unit_name ≠ u) :
    seatsOfUnit l u = 0 := by
  unfold seatsOfUnit
  rw [List.filter_eq_nil_iff.mpr]
  · rfl
  · intro a ha
    simp [h a ha]

theorem updateFloorRem_map_fst (key : String × ℤ) (amt : ℤ) :
    ∀ rem : List (Floor × ℤ), (updateFloorRem key amt rem).map (·.1) = rem.map (·.1) := by
  intro rem
  induction rem with
  | nil => rfl
  | cons e rest ih =>
    rcases e with ⟨f, r⟩
    simp only [updateFloorRem]
    split
    · simp
    · simp only [List.map_cons]
      rw [ih]

/-- Elements of the updated table: untouched entries with a different
identity, or the uniquely matching entry with its capacity decreased. -/
theorem updateFloorRem_mem (key : String × ℤ) (amt : ℤ) :
    ∀ (rem : List (Floor × ℤ)) (f0 : Floor) (r0 : ℤ),
      (f0, r0) ∈ rem → f0.floor_id = key →
      ((rem.map (fun e => e.1.floor_id)).Nodup) →
      ∀ e ∈ updateFloorRem key amt rem,
        (e ∈ rem ∧ e.1.floor_id ≠ key) ∨ e = (f0, r0 - amt) := by
  intro rem
  induction rem with
  | nil => intro f0 r0 h; cases h
  | cons hd rest ih =>
    intro f0 r0 hmem hkey hnd e he
    rcases hd with ⟨g, s⟩
    simp only [updateFloorRem] at he
    by_cases hg : g.floor_id = key
    · rw [if_pos hg] at he
      have hf0 : (f0, r0) = (g, s) := by
        cases List.mem_cons.mp hmem with
        | inl h => exact h
        | inr h =>
          exfalso
          have : f0.floor_id ∈ rest.map (fun e => e.1.floor_id) := by
            exact List.mem_map_of_mem _ h
          rw [hkey, ← hg] at this
          exact (List.nodup_cons.mp hnd).1 this
      cases List.mem_cons.mp he with
      | inl h =>
        right
        rw [h]
        have h1 : f0 = g := congrArg Prod.fst hf0
        have h2 : r0 = s := congrArg Prod.snd hf0
        rw [h1, h2]
      | inr h =>
        left
        refine ⟨List.mem_cons_of_mem _ h, ?_⟩
        intro hek
        have : e.1.floor_id ∈ rest.map (fun x => x.1.floor_id) := List.mem_map_of_mem _ h
        rw [hek, ← hg] at this
        exact (List.nodup_cons.mp hnd).1 this
    · rw [if_neg hg] at he
      cases List.mem_cons.mp he with
      | inl h =>
        left
        rw [h]
        exact ⟨List.mem_cons_self _ _, hg⟩
      | inr h =>
        have hf0rest : (f0, r0) ∈ rest := by
          cases List.mem_cons.mp hmem with
          | inl hh =>
            exfalso
            apply hg
            rw [← hkey]
            rw [show g = f0 from (congrArg Prod.fst hh).symm]
          | inr hh => exact hh
        cases ih f0 r0 hf0rest hkey (List.nodup_cons.mp hnd).2 e h with
        | inl hh => exact Or.inl ⟨List.mem_cons_of_mem _ hh.1, hh.2⟩
        | inr hh => exact Or.inr hh

theorem updateFloorRem_sumRem (key : String × ℤ) (amt : ℤ) :
    ∀ rem : List (Floor × ℤ), (∃ e ∈ rem, e.1.floor_id = key) →
      sumRem (updateFloorRem key amt rem) = sumRem rem - amt := by
  intro rem
  induction rem with
  | nil => rintro ⟨e, he, _⟩; cases he
  | cons hd rest ih =>
    rintro ⟨e, he, hek⟩
    rcases hd with ⟨g, s⟩
    simp only [updateFloorRem]
    by_cases hg : g.floor_id = key
    · rw [if_pos hg]
      simp only [sumRem, List.map_cons, List.sum_cons]
      omega
    · rw [if_neg hg]
      have herest : e ∈ rest := by
        cases List.mem_cons.mp he with
        | inl hh =>
          exfalso
          apply hg
          rw [← hek, hh]
        | inr hh => exact hh
      have := ih ⟨e, herest, hek⟩
      simp only [sumRem, List.map_cons, List.sum_cons] at *
      omega

theorem adjacencyBonus_nonneg (f : Floor) (existing : List FloorAssignment) (u : String) :
    0 ≤ (compute_adjacency_tier f existing u).2 := by
  simp only [compute_adjacency_tier]
  split
  · exact le_refl 0
  · split
    · decide
    · split
      · decide
      · split
        · decide
        · decide

theorem scoreFloorForUnit_lower (f : Floor) (r : ℤ) (existing : List FloorAssignment)
    (u : String) (fu : ℕ) (hr : 0 < r) (hfu : fu ≤ 33333) :
    -999999 < score_floor_for_unit f r existing u fu := by
  unfold score_floor_for_unit
  rw [if_neg (by omega)]
  have hb := adjacencyBonus_nonneg f existing u
  have hfu' : (fu : ℤ) ≤ 33333 := by exact_mod_cast hfu
  have : (0:ℤ) ≤ (compute_adjacency_tier f existing u).2 := hb
  unfold FRAGMENTATION_PENALTY_PER_FLOOR
  omega

theorem selectStep_isSome (assignments : List FloorAssignment) (u : String) (fu : ℕ)
    (best : Option ((Floor × ℤ) × ℤ)) (entry : Floor × ℤ) (h : best.isSome) :
    (selectStep assignments u fu best entry).isSome := by
  unfold selectStep
  split
  · exact h
  · dsimp only
    split
    · rfl
    · exact h

theorem foldl_selectStep_isSome (assignments : List FloorAssignment) (u : String) (fu : ℕ) :
    ∀ (l : List (Floor × ℤ)) (best : Option ((Floor × ℤ) × ℤ)), best.isSome →
      (l.foldl (selectStep assignments u fu) best).isSome := by
  intro l
  induction l with
  | nil => intro best h; exact h
  | cons e rest ih =>
    intro best h
    exact ih _ (selectStep_isSome assignments u fu best e h)

/-- The scan picks something whenever some floor has positive remaining
capacity and a score above the sentinel. -/
theorem selectBestFloor_isSome (assignments : List FloorAssignment) (u : String) (fu : ℕ) :
    ∀ (l : List (Floor × ℤ)) (best : Option ((Floor × ℤ) × ℤ)),
      (∃ e ∈ l, 0 < e.2 ∧
        -999999 < score_floor_for_unit e.1 e.2 assignments u fu) →
      (l.foldl (selectStep assignments u fu) best).isSome := by
  intro l
  induction l with
  | nil => rintro best ⟨e, he, _⟩; cases he
  | cons hd rest ih =>
    rintro best ⟨e, he, hpos, hscore⟩
    cases List.mem_cons.mp he with
    | inl hh =>
      subst hh
      rw [List.foldl_cons]
      apply foldl_selectStep_isSome
      cases best with
      | none =>
        unfold selectStep
        rw [if_neg (by omega)]
        dsimp only
        rw [if_pos (by exact hscore)]
        rfl
      | some v =>
        exact selectStep_isSome assignments u fu _ _ rfl
    | inr hh =>
      rw [List.foldl_cons]
      exact ih _ ⟨e, hh, hpos, hscore⟩

/-- Whatever the scan returns is a table entry with positive remaining
capacity. -/
theorem selectBestFloor_mem (assignments : List FloorAssignment) (u : String) (fu : ℕ) :
    ∀ (l : List (Floor × ℤ)) (best : Option ((Floor × ℤ) × ℤ)) (e : Floor × ℤ) (s : ℤ),
      l.foldl (selectStep assignments u fu) best = some (e, s) →
      best = some (e, s) ∨ (e ∈ l ∧ 0 < e.2) := by
  intro l
  induction l with
  | nil =>
    intro best e s h
    exact Or.inl h
  | cons hd rest ih =>
    intro best e s h
    cases ih _ e s h with
    | inr hh => exact Or.inr ⟨List.mem_cons_of_mem _ hh.1, hh.2⟩
    | inl hh =>
      unfold selectStep at hh
      by_cases hskip : hd.2 ≤ 0
      · rw [if_pos hskip] at hh
        exact Or.inl hh
      · rw [if_neg hskip] at hh
        dsimp only at hh
        split at hh
        · have : hd = e := congrArg Prod.fst (Option.some.inj hh)
          exact Or.inr ⟨by rw [← this]; exact List.mem_cons_self _ _, by rw [← this]; omega⟩
        · exact Or.inl hh

theorem sum_nonpos_int : ∀ l : List ℤ, (∀ x ∈ l, x ≤ 0) → l.sum ≤ 0 := by
  intro l
  induction l with
  | nil => intro _; simp
  | cons x xs ih =>
    intro h
    have h1 := h x (List.mem_cons_self x xs)
    have h2 := ih (fun y hy => h y (List.mem_cons_of_mem _ hy))
    simp only [List.sum_cons]
    omega

/-- In a non-negative table, a positive total implies a positive entry. -/
theorem exists_pos_entry (rem : List (Floor × ℤ)) (hnn : ∀ e ∈ rem, 0 ≤ e.2)
    (hpos : 0 < sumRem rem) : ∃ e ∈ rem, 0 < e.2 := by
  by_contra hcon
  push_neg at hcon
  have : sumRem rem ≤ 0 := by
    unfold sumRem
    apply sum_nonpos_int
    intro x hx
    rcases List.mem_map.mp hx with ⟨e, he, hex⟩
    rw [← hex]
    exact hcon e he
  omega

/-- Distinct floors used by a unit never exceed the table size. -/
theorem floorsUsedBy_le (asg : List FloorAssignment) (rem : List (Floor × ℤ)) (u : String)
    (hinv4 : ∀ a ∈ asg, a.floorKey ∈ rem.map (fun e => e.1.floor_id)) :
    floorsUsedBy asg u ≤ rem.length := by
  unfold floorsUsedBy
  have hnd : (((asg.filter (fun a => a.unit_name == u)).map
      FloorAssignment.floorKey).dedup).Nodup := List.nodup_dedup _
  have hsub : ((asg.filter (fun a => a.unit_name == u)).map
      FloorAssignment.floorKey).dedup ⊆ rem.map (fun e => e.1.floor_id) := by
    intro k hk
    rw [List.mem_dedup] at hk
    rcases List.mem_map.mp hk with ⟨a, ha, hak⟩
    rw [← hak]
    exact hinv4 a (List.mem_of_mem_filter ha)
  calc ((asg.filter (fun a => a.unit_name == u)).map FloorAssignment.floorKey).dedup.length
      ≤ (rem.map (fun e => e.1.floor_id)).length := (hnd.subperm hsub).length_le
    _ = rem.length := List.length_map _ _

theorem updateFloorRem_map_floorId (key : String × ℤ) (amt : ℤ) (rem : List (Floor × ℤ)) :
    (updateFloorRem key amt rem).map (fun e => e.1.floor_id) =
      rem.map (fun e => e.1.floor_id) := by
  have h := updateFloorRem_map_fst key amt rem
  calc (updateFloorRem key amt rem).map (fun e => e.1.floor_id)
      = ((updateFloorRem key amt rem).map (·.1)).map Floor.floor_id := by
        rw [List.map_map]; rfl
    _ = (rem.map (·.1)).map Floor.floor_id := by rw [h]
    _ = rem.map (fun e => e.1.floor_id) := by rw [List.map_map]; rfl

theorem updateFloorRem_length (key : String × ℤ) (amt : ℤ) (rem : List (Floor × ℤ)) :
    (updateFloorRem key amt rem).length = rem.length := by
  have h := updateFloorRem_map_fst key amt rem
  have := congrArg List.length h
  simpa using this

/-- Master specification of the inner placement loop: it only appends
assignments of the given unit, preserves the invariant and the floor set,
never places more seats than requested nor more than the remaining
capacity provides, and — when the table holds enough capacity, the fuel
covers the request and the table is not absurdly large — places the full
request. -/
theorem placeUnit_spec (u : String) : ∀ (fuel : ℕ) (stp : ℤ) (asg : List FloorAssignment)
    (rem : List (Floor × ℤ)), PlacementInv asg rem →
    ∃ pre : List FloorAssignment,
      (placeUnit fuel stp u asg rem).1 = asg ++ pre ∧
      (∀ a ∈ pre, a.unit_name = u) ∧
      PlacementInv (placeUnit fuel stp u asg rem).1 (placeUnit fuel stp u asg rem).2 ∧
      0 ≤ (pre.map (·.seats_assigned)).sum ∧
      (pre.map (·.seats_assigned)).sum ≤ max stp 0 ∧
      sumRem (placeUnit fuel stp u asg rem).2 =
        sumRem rem - (pre.map (·.seats_assigned)).sum ∧
      (placeUnit fuel stp u asg rem).2.map (·.1) = rem.map (·.1) ∧
      (0 ≤ stp → stp ≤ sumRem rem → stp.toNat ≤ fuel → rem.length ≤ 33333 →
        (pre.map (·.seats_assigned)).sum = stp) := by
  intro fuel
  induction fuel with
  | zero =>
    intro stp asg rem hInv
    refine ⟨[], by simp [placeUnit], by simp, by simpa [placeUnit] using hInv, le_refl 0,
      by simpa using le_max_right stp 0, by simp [placeUnit], by simp [placeUnit], ?_⟩
    intro h0 _ h2 _
    simp only [List.map_nil, List.sum_nil]
    omega
  | succ fuel ih =>
    intro stp asg rem hInv
    by_cases hstp : stp ≤ 0
    · have heq : placeUnit (fuel + 1) stp u asg rem = (asg, rem) := by
        simp only [placeUnit]
        rw [if_pos hstp]
      refine ⟨[], by simp [heq], by simp, by simpa [heq] using hInv, le_refl 0,
        by simpa using le_max_right stp 0, by simp [heq], by simp [heq], ?_⟩
      intro h0 _ _ _
      simp only [List.map_nil, List.sum_nil]
      omega
    · cases hsel : selectBestFloor rem asg u (floorsUsedBy asg u) with
      | none =>
        have heq : placeUnit (fuel + 1) stp u asg rem = (asg, rem) := by
          simp only [placeUnit]
          rw [if_neg hstp, hsel]
        refine ⟨[], by simp [heq], by simp, by simpa [heq] using hInv, le_refl 0,
          by simpa using le_max_right stp 0, by simp [heq], by simp [heq], ?_⟩
        intro h0 h1 _ h3
        exfalso
        obtain ⟨e, he, hpos⟩ := exists_pos_entry rem hInv.1 (by omega)
        have hfu : floorsUsedBy asg u ≤ rem.length :=
          floorsUsedBy_le asg rem u hInv.2.2.2
        have hscore := scoreFloorForUnit_lower e.1 e.2 asg u (floorsUsedBy asg u) hpos
          (le_trans hfu h3)
        have hsome := selectBestFloor_isSome asg u (floorsUsedBy asg u) rem none
          ⟨e, he, hpos, hscore⟩
        rw [show rem.foldl (selectStep asg u (floorsUsedBy asg u)) none =
          selectBestFloor rem asg u (floorsUsedBy asg u) from rfl, hsel] at hsome
        cases hsome
      | some val =>
        obtain ⟨⟨f, rval⟩, sc⟩ := val
        have hmem : (f, rval) ∈ rem ∧ 0 < rval := by
          cases selectBestFloor_mem asg u (floorsUsedBy asg u) rem none (f, rval) sc hsel with
          | inl h => exact Option.noConfusion h
          | inr h => exact h
        have hpos : 0 < stp := by omega
        have hp1 : 1 ≤ min stp rval := by
          have := hmem.2
          omega
        have hple : min stp rval ≤ rval := min_le_right _ _
        have hpls : min stp rval ≤ stp := min_le_left _ _
        set na : FloorAssignment :=
          { unit_name := u
            building_id := f.building_id
            tower_id := f.tower_id
            floor_number := f.floor_number
            seats_assigned := min stp rval
            adjacency_tier := (compute_adjacency_tier f asg u).1 } with hna
        have heq : placeUnit (fuel + 1) stp u asg rem =
            placeUnit fuel (stp - min stp rval) u (asg ++ [na])
              (updateFloorRem f.floor_id (min stp rval) rem) := by
          simp only [placeUnit]
          rw [if_neg hstp, hsel]
        have hnakey : na.floorKey = f.floor_id := rfl
        obtain ⟨inv1, inv2, inv3, inv4⟩ := hInv
        have hupmem := updateFloorRem_mem f.floor_id (min stp rval) rem f rval hmem.1 rfl inv2
        have hInv' : PlacementInv (asg ++ [na]) (updateFloorRem f.floor_id (min stp rval) rem) := by
          refine ⟨?_, ?_, ?_, ?_⟩
          · intro e he
            cases hupmem e he with
            | inl h => exact inv1 e h.1
            | inr h =>
              rw [h]
              show (0:ℤ) ≤ rval - min stp rval
              omega
          · rw [updateFloorRem_map_floorId]
            exact inv2
          · intro e he
            have hseats : seatsOnFloor (asg ++ [na]) e.1.floor_id =
                seatsOnFloor asg e.1.floor_id +
                  (if na.floorKey = e.1.floor_id then min stp rval else 0) := by
              rw [seatsOnFloor_append, seatsOnFloor_single]
            cases hupmem e he with
            | inl h =>
              rw [hseats, if_neg]
              · have := inv3 e h.1
                omega
              · rw [hnakey]
                intro hc
                exact h.2 (by rw [← hc])
            | inr h =>
              rw [h]
              show rval - min stp rval + seatsOnFloor (asg ++ [na]) f.floor_id = f.total_seats
              rw [seatsOnFloor_append, seatsOnFloor_single, if_pos hnakey]
              have hnaseats : na.seats_assigned = min stp rval := rfl
              rw [hnaseats]
              have hinv3 : rval + seatsOnFloor asg f.floor_id = f.total_seats :=
                inv3 (f, rval) hmem.1
              omega
          · intro a ha
            rw [updateFloorRem_map_floorId]
            cases List.mem_append.mp ha with
            | inl h => exact inv4 a h
            | inr h =>
              have : a = na := by simpa using h
              rw [this, hnakey]
              exact List.mem_map.mpr ⟨(f, rval), hmem.1, rfl⟩
        obtain ⟨pre', h1', h2', h3', h4', h5', h6', h7', h8'⟩ :=
          ih (stp - min stp rval) (asg ++ [na]) (updateFloorRem f.floor_id (min stp rval) rem)
            hInv'
        have hsumrem' : sumRem (updateFloorRem f.floor_id (min stp rval) rem) =
            sumRem rem - min stp rval :=
          updateFloorRem_sumRem f.floor_id (min stp rval) rem ⟨(f, rval), hmem.1, rfl⟩
        refine ⟨na :: pre', ?_, ?_, ?_, ?_, ?_, ?_, ?_, ?_⟩
        · rw [heq, h1', List.append_assoc]
          rfl
        · intro a ha
          cases List.mem_cons.mp ha with
          | inl h => rw [h]
          | inr h => exact h2' a h
        · rw [heq]
          exact h3'
        · simp only [List.map_cons, List.sum_cons]
          show 0 ≤ min stp rval + (pre'.map (·.seats_assigned)).sum
          omega
        · simp only [List.map_cons, List.sum_cons]
          have hmax1 : max (stp - min stp rval) 0 = stp - min stp rval :=
            max_eq_left (by omega)
          have hmax2 : max stp 0 = stp := max_eq_left (by omega)
          rw [hmax1] at h5'
          rw [hmax2]
          show min stp rval + (pre'.map (·.seats_assigned)).sum ≤ stp
          omega
        · rw [heq, h6', hsumrem']
          simp only [List.map_cons, List.sum_cons]
          show sumRem rem - min stp rval - (pre'.map (·.seats_assigned)).sum =
            sumRem rem - (min stp rval + (pre'.map (·.seats_assigned)).sum)
          omega
        · rw [heq, h7', updateFloorRem_map_fst]
        · intro h0 h1 h2 h3
          have hlen : (updateFloorRem f.floor_id (min stp rval) rem).length = rem.length :=
            updateFloorRem_length _ _ _
          have h8res := h8' (by omega) (by omega) (by omega) (by omega)
          simp only [List.map_cons, List.sum_cons]
          show min stp rval + (pre'.map (·.seats_assigned)).sum = stp
          omega

/-- The outer placement fold preserves the invariant and the floor set,
and only appends assignments named after processed units. -/
theorem foldPlace_inv : ∀ (allocs : List AllocationRecommendation)
    (asg : List FloorAssignment) (rem : List (Floor × ℤ)), PlacementInv asg rem →
    PlacementInv (allocs.foldl placeStep (asg, rem)).1
      (allocs.foldl placeStep (asg, rem)).2 ∧
    (allocs.foldl placeStep (asg, rem)).2.map (·.1) = rem.map (·.1) ∧
    (∃ pre, (allocs.foldl placeStep (asg, rem)).1 = asg ++ pre ∧
      ∀ a ∈ pre, a.unit_name ∈ allocs.map (·.unit_name)) := by
  intro allocs
  induction allocs with
  | nil =>
    intro asg rem h
    exact ⟨h, rfl, [], by simp, by simp⟩
  | cons al rest ih =>
    intro asg rem h
    obtain ⟨pre, hp1, hp2, hp3, _, _, _, hp7, _⟩ :=
      placeUnit_spec al.unit_name al.allocated_seats.toNat al.allocated_seats asg rem h
    rw [List.foldl_cons]
    have hp3' : PlacementInv (placeStep (asg, rem) al).1 (placeStep (asg, rem) al).2 := hp3
    obtain ⟨ihinv, ihfst, ⟨pre2, hpre2, hpre2n⟩⟩ :=
      ih (placeStep (asg, rem) al).1 (placeStep (asg, rem) al).2 hp3'
    refine ⟨ihinv, by rw [ihfst]; exact hp7, ⟨pre ++ pre2, ?_, ?_⟩⟩
    · rw [hpre2]
      show (placeUnit al.allocated_seats.toNat al.allocated_seats al.unit_name asg rem).1
        ++ pre2 = asg ++ (pre ++ pre2)
      rw [hp1, List.append_assoc]
    · intro a ha
      cases List.mem_append.mp ha with
      | inl hh =>
        rw [hp2 a hh]
        simp
      | inr hh =>
        have := hpre2n a hh
        simp only [List.map_cons, List.mem_cons]
        exact Or.inr this

/-- The outer placement fold gives every (duplicate-free named) unit at
most its allocation, exactly its allocation when the table is large
enough in capacity (and not absurdly long). -/
theorem foldPlace_units : ∀ (allocs : List AllocationRecommendation)
    (asg : List FloorAssignment) (rem : List (Floor × ℤ)), PlacementInv asg rem →
    (∀ al ∈ allocs, ∀ a ∈ asg, a.unit_name ≠ al.unit_name) →
    ((allocs.map (·.unit_name)).Nodup) →
    (∀ al ∈ allocs, 0 ≤ al.allocated_seats) →
    (∀ al ∈ allocs,
      seatsOfUnit (allocs.foldl placeStep (asg, rem)).1 al.unit_name ≤
        al.allocated_seats) ∧
    (rem.length ≤ 33333 → (allocs.map (·.allocated_seats)).sum ≤ sumRem rem →
      ∀ al ∈ allocs,
        seatsOfUnit (allocs.foldl placeStep (asg, rem)).1 al.unit_name =
          al.allocated_seats) := by
  intro allocs
  induction allocs with
  | nil =>
    intro asg rem _ _ _ _
    exact ⟨fun al hal => absurd hal (List.not_mem_nil al),
      fun _ _ al hal => absurd hal (List.not_mem_nil al)⟩
  | cons al rest ih =>
    intro asg rem hInv hfresh hnd hnn
    obtain ⟨pre, hp1, hp2, hp3, hp4, hp5, hp6, hp7, hp8⟩ :=
      placeUnit_spec al.unit_name al.allocated_seats.toNat al.allocated_seats asg rem hInv
    have hal0 : 0 ≤ al.allocated_seats := hnn al (List.mem_cons_self _ _)
    have hrestnn : 0 ≤ (rest.map (·.allocated_seats)).sum := by
      apply List.sum_nonneg
      intro x hx
      rcases List.mem_map.mp hx with ⟨b, hb, hbx⟩
      rw [← hbx]
      exact hnn b (List.mem_cons_of_mem _ hb)
    have halnot : al.unit_name ∉ rest.map (·.unit_name) := (List.nodup_cons.mp hnd).1
    have hp3' : PlacementInv (placeStep (asg, rem) al).1 (placeStep (asg, rem) al).2 := hp3
    have hfresh' : ∀ al' ∈ rest, ∀ a ∈ (placeStep (asg, rem) al).1,
        a.unit_name ≠ al'.unit_name := by
      intro al' hal' a ha
      have ha' : a ∈ asg ++ pre := by
        rw [← hp1]
        exact ha
      cases List.mem_append.mp ha' with
      | inl hh => exact hfresh al' (List.mem_cons_of_mem _ hal') a hh
      | inr hh =>
        rw [hp2 a hh]
        intro hc
        exact halnot (by rw [hc]; exact List.mem_map_of_mem _ hal')
    obtain ⟨ihle, iheq⟩ := ih (placeStep (asg, rem) al).1 (placeStep (asg, rem) al).2 hp3'
      hfresh' (List.nodup_cons.mp hnd).2 (fun b hb => hnn b (List.mem_cons_of_mem _ hb))
    obtain ⟨_, _, ⟨pre2, hpre2, hpre2n⟩⟩ :=
      foldPlace_inv rest (placeStep (asg, rem) al).1 (placeStep (asg, rem) al).2 hp3'
    have hfinal1 : (rest.foldl placeStep (placeStep (asg, rem) al)).1 =
        asg ++ pre ++ pre2 := by
      have : (rest.foldl placeStep
          ((placeStep (asg, rem) al).1, (placeStep (asg, rem) al).2)).1 =
          (placeStep (asg, rem) al).1 ++ pre2 := hpre2
      rw [show ((placeStep (asg, rem) al).1, (placeStep (asg, rem) al).2) =
        placeStep (asg, rem) al from rfl] at this
      rw [this]
      show (placeUnit al.allocated_seats.toNat al.allocated_seats al.unit_name asg rem).1
        ++ pre2 = asg ++ pre ++ pre2
      rw [hp1]
    have hheadseats : seatsOfUnit (rest.foldl placeStep (placeStep (asg, rem) al)).1
        al.unit_name = (pre.map (·.seats_assigned)).sum := by
      rw [hfinal1, seatsOfUnit_append, seatsOfUnit_append]
      rw [seatsOfUnit_of_none asg al.unit_name
        (fun a ha => hfresh al (List.mem_cons_self _ _) a ha)]
      rw [seatsOfUnit_of_all pre al.unit_name hp2]
      rw [seatsOfUnit_of_none pre2 al.unit_name ?_]
      · omega
      · intro a ha hc
        exact halnot (by rw [← hc]; exact hpre2n a ha)
    constructor
    · intro al' hal'
      rw [List.foldl_cons]
      cases List.mem_cons.mp hal' with
      | inl hh =>
        subst hh
        rw [hheadseats]
        have : max al'.allocated_seats 0 = al'.allocated_seats := max_eq_left hal0
        omega
      | inr hh => exact ihle al' hh
    · intro hlen hsum al' hal'
      have hplaced : (pre.map (·.seats_assigned)).sum = al.allocated_seats := by
        apply hp8 hal0
        · have : (((al :: rest).map (·.allocated_seats)).sum : ℤ) =
              al.allocated_seats + (rest.map (·.allocated_seats)).sum := by simp
          omega
        · exact le_refl _
        · exact hlen
      rw [List.foldl_cons]
      cases List.mem_cons.mp hal' with
      | inl hh =>
        subst hh
        rw [hheadseats, hplaced]
      | inr hh =>
        apply iheq
        · have hlen2 : (placeStep (asg, rem) al).2.length = rem.length := by
            have := congrArg List.length hp7
            simpa using this
          omega
        · have hsum2 : sumRem (placeStep (asg, rem) al).2 =
              sumRem rem - (pre.map (·.seats_assigned)).sum := hp6
          have : (((al :: rest).map (·.allocated_seats)).sum : ℤ) =
              al.allocated_seats + (rest.map (·.allocated_seats)).sum := by simp
          omega
        · exact hh

/-- The initial floor-remaining table satisfies the invariant. -/
theorem initialInv (floors : List Floor) (excluded : List (String × ℤ))
    (hnodupF : (floors.map Floor.floor_id).Nodup)
    (hcap : ∀ f ∈ floors, 0 ≤ f.total_seats) :
    PlacementInv [] ((floors.filter (fun f => decide (f.floor_id ∉ excluded))).map
      (fun f => (f, f.total_seats))) := by
  refine ⟨?_, ?_, ?_, ?_⟩
  · intro e he
    rcases List.mem_map.mp he with ⟨f, hf, hfe⟩
    rw [← hfe]
    exact hcap f (List.mem_of_mem_filter hf)
  · have hmm : ((floors.filter (fun f => decide (f.floor_id ∉ excluded))).map
        (fun f => (f, f.total_seats))).map (fun e => e.1.floor_id) =
        (floors.filter (fun f => decide (f.floor_id ∉ excluded))).map Floor.floor_id := by
      rw [List.map_map]
      rfl
    rw [hmm]
    exact ((List.filter_sublist floors).map Floor.floor_id).nodup hnodupF
  · intro e he
    rcases List.mem_map.mp he with ⟨f, _, hfe⟩
    rw [← hfe]
    show f.total_seats + seatsOnFloor [] f.floor_id = f.total_seats
    rw [seatsOnFloor_nil]
    omega
  · intro a ha
    cases ha

/-- C2.  Floor capacity invariant of `assign_units_to_floors`: on every
non-excluded floor the seats assigned never exceed the (already
scenario-adjusted) capacity of that floor, and no assignment ever lands
on an excluded floor. -/
theorem C2_floor_capacity (allocations : List AllocationRecommendation) (floors : List Floor)
    (excluded : List (String × ℤ))
    (hnodupF : (floors.map Floor.floor_id).Nodup)
    (hcap : ∀ f ∈ floors, 0 ≤ f.total_seats) :
    (∀ f ∈ floors, f.floor_id ∉ excluded →
      seatsOnFloor (assign_units_to_floors allocations floors excluded).1 f.floor_id ≤
        f.total_seats) ∧
    (∀ a ∈ (assign_units_to_floors allocations floors excluded).1,
      a.floorKey ∉ excluded) := by
  obtain ⟨⟨i1, i2, i3, i4⟩, hfst, _⟩ :=
    foldPlace_inv (stableSort (fun a b => decide (b.allocated_seats ≤ a.allocated_seats))
      allocations) []
      ((floors.filter (fun f => decide (f.floor_id ∉ excluded))).map
        (fun f => (f, f.total_seats)))
      (initialInv floors excluded hnodupF hcap)
  have hids : (((stableSort (fun a b => decide (b.allocated_seats ≤ a.allocated_seats))
      allocations).foldl placeStep
      ([], (floors.filter (fun f => decide (f.floor_id ∉ excluded))).map
        (fun f => (f, f.total_seats)))).2).map (fun e => e.1.floor_id) =
      (floors.filter (fun f => decide (f.floor_id ∉ excluded))).map Floor.floor_id := by
    calc _ = ((((stableSort (fun a b => decide (b.allocated_seats ≤ a.allocated_seats))
          allocations).foldl placeStep
          ([], (floors.filter (fun f => decide (f.floor_id ∉ excluded))).map
            (fun f => (f, f.total_seats)))).2).map (·.1)).map Floor.floor_id := by
          rw [List.map_map]; rfl
      _ = ((((floors.filter (fun f => decide (f.floor_id ∉ excluded))).map
          (fun f => (f, f.total_seats))).map (·.1))).map Floor.floor_id := by rw [hfst]
      _ = (floors.filter (fun f => decide (f.floor_id ∉ excluded))).map Floor.floor_id := by
          rw [List.map_map, List.map_map]; rfl
  constructor
  · intro f hf hfex
    have hfin : f ∈ (((stableSort (fun a b => decide (b.allocated_seats ≤ a.allocated_seats))
        allocations).foldl placeStep
        ([], (floors.filter (fun f => decide (f.floor_id ∉ excluded))).map
          (fun f => (f, f.total_seats)))).2).map (·.1) := by
      rw [hfst, List.map_map]
      refine List.mem_map.mpr ⟨f, List.mem_filter.mpr ⟨hf, by simpa using hfex⟩, rfl⟩
    rcases List.mem_map.mp hfin with ⟨e', he', he'f⟩
    have h3 := i3 e' he'
    have h1 := i1 e' he'
    rw [he'f] at h3
    show seatsOnFloor (((stableSort (fun a b => decide (b.allocated_seats ≤ a.allocated_seats))
      allocations).foldl placeStep
      ([], (floors.filter (fun f => decide (f.floor_id ∉ excluded))).map
        (fun f => (f, f.total_seats)))).1) f.floor_id ≤ f.total_seats
    omega
  · intro a ha
    have hkey := i4 a ha
    rw [hids] at hkey
    rcases List.mem_map.mp hkey with ⟨g, hg, hgk⟩
    have hgex : g.floor_id ∉ excluded := by
      have := (List.mem_filter.mp hg).2
      simpa using this
    rw [← hgk]
    exact hgex

/-- C3.  Spatial placement conservation: every unit receives at most its
allocated seats across its floor assignments, and exactly its allocated
seats whenever the total capacity of the non-excluded floors covers the total
allocation (the table-size bound reflects the `-999999` score sentinel,
which could only be reached past 33,333 floors). -/
theorem C3_placement_conservation (allocations : List AllocationRecommendation)
    (floors : List Floor) (excluded : List (String × ℤ))
    (hnodupF : (floors.map Floor.floor_id).Nodup)
    (hnodupN : (allocations.map (·.unit_name)).Nodup)
    (hcap : ∀ f ∈ floors, 0 ≤ f.total_seats)
    (halloc : ∀ a ∈ allocations, 0 ≤ a.allocated_seats) :
    (∀ al ∈ allocations,
      seatsOfUnit (assign_units_to_floors allocations floors excluded).1 al.unit_name ≤
        al.allocated_seats) ∧
    (floors.length ≤ 33333 →
      (allocations.map (·.allocated_seats)).sum ≤ includedCapacity floors excluded →
      ∀ al ∈ allocations,
        seatsOfUnit (assign_units_to_floors allocations floors excluded).1 al.unit_name =
          al.allocated_seats) := by
  have hperm : List.Perm (stableSort
      (fun a b => decide (b.allocated_seats ≤ a.allocated_seats)) allocations) allocations :=
    stableSort_perm _ allocations
  have hndsorted : ((stableSort (fun a b => decide (b.allocated_seats ≤ a.allocated_seats))
      allocations).map (·.unit_name)).Nodup :=
    (hperm.map (·.unit_name)).nodup_iff.mpr hnodupN
  have hnnsorted : ∀ al ∈ stableSort
      (fun a b => decide (b.allocated_seats ≤ a.allocated_seats)) allocations,
      0 ≤ al.allocated_seats := fun al hal => halloc al (hperm.mem_iff.mp hal)
  obtain ⟨hle, heq⟩ := foldPlace_units
    (stableSort (fun a b => decide (b.allocated_seats ≤ a.allocated_seats)) allocations) []
    ((floors.filter (fun f => decide (f.floor_id ∉ excluded))).map (fun f => (f, f.total_seats)))
    (initialInv floors excluded hnodupF hcap)
    (fun _ _ a ha => absurd ha (List.not_mem_nil a))
    hndsorted hnnsorted
  have hsumrem : sumRem ((floors.filter (fun f => decide (f.floor_id ∉ excluded))).map
      (fun f => (f, f.total_seats))) = includedCapacity floors excluded := by
    unfold sumRem includedCapacity
    rw [List.map_map]
    rfl
  have hlenrem : ((floors.filter (fun f => decide (f.floor_id ∉ excluded))).map
      (fun f => (f, f.total_seats))).length ≤ floors.length := by
    rw [List.length_map]
    exact List.length_filter_le _ floors
  constructor
  · intro al hal
    exact hle al (hperm.mem_iff.mpr hal)
  · intro hlen hsum al hal
    apply heq (by omega) ?_ al (hperm.mem_iff.mpr hal)
    rw [hsumrem]
    have := (hperm.map (·.allocated_seats)).sum_eq
    omega

/-- Witness for C2 at one included and one excluded floor. -/
theorem C2_floor_capacity_witness :
    seatsOnFloor (assign_units_to_floors [cxRec80] [wFloor1] [("B1-T9", 9)]).1
      wFloor1.floor_id ≤ wFloor1.total_seats := by
  have h := C2_floor_capacity [cxRec80] [wFloor1] [("B1-T9", 9)] (by decide) (by decide)
  exact h.1 wFloor1 (List.mem_cons_self _ _) (by decide)

/-- Witness for C3: 80 allocated seats against one 100-seat floor are
placed in full. -/
theorem C3_placement_conservation_witness :
    seatsOfUnit (assign_units_to_floors [cxRec80] [wFloor1] []).1 "W" = 80 := by
  have h := C3_placement_conservation [cxRec80] [wFloor1] [] (by decide) (by decide)
    (by decide) (by decide)
  have := h.2 (by decide) (of_decide_eq_true (by with_unfolding_all rfl)) cxRec80
    (List.mem_cons_self _ _)
  exact this

end Corp
